import Mathlib

/-!
A verification development for the paste storage engine of hasty-paste
(`paste_bin/helpers.py` and `paste_bin/core/models.py`).

The Python code is shallowly embedded: Python `str` and `bytes` values are
modelled as `List Char` (the stored files are UTF-8 text plus raw content;
byte-level and character-level line splitting agree because the byte 0x0A
occurs in UTF-8 exactly for the character U+000A), Python `int` as `Int`,
`datetime.datetime` as an explicit record of calendar fields plus an
optional UTC offset in minutes, exceptions as `Except`, and the filesystem
as an association list from paths to file contents.

The JSON machinery models the behaviour of `json.dumps` / `json.loads` and
the pydantic v1 validators as used by `PasteMeta.parse_raw` and
`PasteMeta.json()`.  Modelling notes (behaviour of the external libraries
that the repository relies on, restricted to what its data can exercise):
* `json.dumps` is modelled with `ensure_ascii=False` style output
  (characters at or above U+0020 other than the quote and the backslash are
  emitted literally; control characters use the standard short escapes or
  `\u00XX`).  The `ensure_ascii=True` default additionally escapes
  non-ASCII characters; both forms decode to the same value, and neither
  form ever contains a raw newline, so the stated properties are unchanged.
* JSON number literals are modelled as (optionally signed) integer
  numerals; float literals, and pydantic v1's lax coercions (bool or
  numeric string to `int`, number to `str`, numeric timestamp to
  `datetime`), are not modelled.  The serializer only ever emits integer
  numerals and strings for these fields.
* `\uXXXX` escapes denoting surrogate halves are rejected by the modelled
  parser; the modelled serializer never emits them.
* pydantic v1 parses `datetime` strings with an anchored regular
  expression `\d{4}-\d{1,2}-\d{1,2}[T ]\d{1,2}:\d{1,2}(:\d{1,2}
  (\.\d{1,6}\d{0,6})?)?(Z|[+-]\d{2}(:?\d{2})?)?` and then range-checks the
  fields exactly as the `datetime` constructor does; the model follows
  that shape with maximal-munch digit groups (equivalent here because every
  digit group is followed by a non-digit in any accepted input).
-/

/-! ### Decimal numerals: Python `str(int)` and digit-group parsing -/

/-- The numeric value of a decimal digit character. -/
def digitVal (c : Char) : Nat := c.toNat - 48

/-- Decimal digit characters of a natural number, most significant first;
models Python `str` on a non-negative `int` (`str(0) = "0"`). -/
def natToChars (n : Nat) : List Char :=
  if h : n < 10 then [Nat.digitChar n]
  else natToChars (n / 10) ++ [Nat.digitChar (n % 10)]
  decreasing_by exact Nat.div_lt_self (by omega) (by omega)

/-- Python `str` on an `int`: a minus sign for negatives, then digits. -/
def intToChars (v : Int) : List Char :=
  if v < 0 then '-' :: natToChars (-v).toNat else natToChars v.toNat

theorem digitChar_isDigit : ∀ d : Nat, d < 10 → (Nat.digitChar d).isDigit := by decide

theorem digitVal_digitChar : ∀ d : Nat, d < 10 → digitVal (Nat.digitChar d) = d := by decide

theorem natToChars_ne_nil (n : Nat) : natToChars n ≠ [] := by
  rw [natToChars]
  split <;> simp

theorem natToChars_digits (n : Nat) : ∀ c ∈ natToChars n, c.isDigit := by
  induction n using natToChars.induct with
  | case1 n h =>
    rw [natToChars, dif_pos h]
    simpa using digitChar_isDigit n h
  | case2 n h ih =>
    rw [natToChars, dif_neg h]
    intro c hc
    rcases List.mem_append.1 hc with h1 | h1
    · exact ih c h1
    · simp only [List.mem_singleton] at h1
      subst h1
      exact digitChar_isDigit _ (Nat.mod_lt _ (by omega))

/-- Value of a digit string read most-significant-first with accumulator. -/
def foldDigits (acc : Nat) (ds : List Char) : Nat :=
  ds.foldl (fun a c => 10 * a + digitVal c) acc

theorem foldDigits_natToChars (n : Nat) :
    ∀ acc, foldDigits acc (natToChars n) = acc * 10 ^ (natToChars n).length + n := by
  induction n using natToChars.induct with
  | case1 n h =>
    intro acc
    rw [natToChars, dif_pos h]
    simp only [foldDigits, List.foldl_cons, List.foldl_nil, List.length_singleton, pow_one,
      digitVal_digitChar n h]
    ring
  | case2 n h ih =>
    intro acc
    rw [natToChars, dif_neg h]
    simp only [foldDigits, List.foldl_append, List.foldl_cons, List.foldl_nil,
      List.length_append, List.length_singleton]
    rw [show List.foldl (fun a c => 10 * a + digitVal c) acc (natToChars (n / 10)) =
      foldDigits acc (natToChars (n / 10)) from rfl, ih acc,
      digitVal_digitChar _ (Nat.mod_lt _ (by omega))]
    have hmod := Nat.div_add_mod n 10
    rw [pow_succ]
    ring_nf
    omega

theorem foldDigits_zero_natToChars (n : Nat) : foldDigits 0 (natToChars n) = n := by
  simpa using foldDigits_natToChars n 0

/-- Maximal run of decimal digits, accumulating their value. -/
def parseDigitsAux (acc : Nat) : List Char → Nat × List Char
  | [] => (acc, [])
  | c :: cs =>
    if c.isDigit then parseDigitsAux (10 * acc + digitVal c) cs else (acc, c :: cs)

/-- True when the input does not begin with a decimal digit. -/
def noDigitHead : List Char → Bool
  | [] => true
  | c :: _ => !c.isDigit

theorem parseDigitsAux_digits (ds : List Char) (hds : ∀ c ∈ ds, c.isDigit) :
    ∀ acc rest, parseDigitsAux acc (ds ++ rest) = parseDigitsAux (foldDigits acc ds) rest := by
  induction ds with
  | nil => intro acc rest; simp [foldDigits]
  | cons c cs ih =>
    intro acc rest
    have hc : c.isDigit := hds c (by simp)
    simp only [List.cons_append, parseDigitsAux, hc, if_true]
    show parseDigitsAux (10 * acc + digitVal c) (cs ++ rest) = _
    rw [ih (fun x hx => hds x (by simp [hx]))]
    simp [foldDigits]

theorem parseDigitsAux_stop (acc : Nat) (rest : List Char) (h : noDigitHead rest) :
    parseDigitsAux acc rest = (acc, rest) := by
  cases rest with
  | nil => rfl
  | cons c cs =>
    simp only [noDigitHead, Bool.not_eq_true'] at h
    simp [parseDigitsAux, h]

/-- One or more decimal digits (maximal munch), as in the JSON number
grammar restricted to integers. -/
def parseNat (cs : List Char) : Option (Nat × List Char) :=
  match cs with
  | [] => none
  | c :: _ => if c.isDigit then some (parseDigitsAux 0 cs) else none

theorem parseNat_natToChars (n : Nat) (rest : List Char) (h : noDigitHead rest) :
    parseNat (natToChars n ++ rest) = some (n, rest) := by
  rcases hsplit : natToChars n with _ | ⟨c, cs⟩
  · exact absurd hsplit (natToChars_ne_nil n)
  · have hdig : ∀ x ∈ natToChars n, x.isDigit := natToChars_digits n
    have hc : c.isDigit := by rw [hsplit] at hdig; exact hdig c (by simp)
    have : parseDigitsAux 0 (natToChars n ++ rest) = (n, rest) := by
      rw [parseDigitsAux_digits (natToChars n) hdig 0 rest, foldDigits_zero_natToChars,
        parseDigitsAux_stop n rest h]
    rw [hsplit] at this
    simp [parseNat, hc, List.cons_append] at this ⊢
    exact this

/-- A signed integer numeral: JSON number syntax restricted to integers
(pydantic's `int` field validation of the parsed value). -/
def parseJsonInt (cs : List Char) : Option (Int × List Char) :=
  match cs with
  | '-' :: r => (parseNat r).map (fun p => (-(p.1 : Int), p.2))
  | _ => (parseNat cs).map (fun p => ((p.1 : Int), p.2))

theorem parseJsonInt_head_digit (c : Char) (cs : List Char) (hc : c.isDigit) :
    parseJsonInt (c :: cs) = (parseNat (c :: cs)).map (fun p => ((p.1 : Int), p.2)) := by
  have hcne : c ≠ '-' := fun hEq => absurd hc (by rw [hEq]; decide)
  unfold parseJsonInt
  split
  · rename_i r heq
    injection heq with h1 _
    exact absurd h1 hcne
  · rfl

theorem parseJsonInt_intToChars (v : Int) (rest : List Char) (h : noDigitHead rest) :
    parseJsonInt (intToChars v ++ rest) = some (v, rest) := by
  by_cases hv : v < 0
  · rw [intToChars, if_pos hv]
    simp only [List.cons_append, parseJsonInt]
    rw [parseNat_natToChars _ rest h]
    simp only [Option.map_some']
    congr 1
    have ht : ((-v).toNat : Int) = -v := Int.toNat_of_nonneg (by omega)
    rw [ht, neg_neg]
  · rw [intToChars, if_neg hv]
    rcases hsplit : natToChars v.toNat with _ | ⟨c, cs⟩
    · exact absurd hsplit (natToChars_ne_nil _)
    · have hc : c.isDigit := by
        have hdig := natToChars_digits v.toNat
        rw [hsplit] at hdig
        exact hdig c (by simp)
      have key : parseJsonInt ((c :: cs) ++ rest) =
          (parseNat ((c :: cs) ++ rest)).map (fun p => ((p.1 : Int), p.2)) := by
        rw [List.cons_append]
        exact parseJsonInt_head_digit c _ hc
      rw [key, ← hsplit, parseNat_natToChars v.toNat rest h]
      simp only [Option.map_some', Option.some.injEq, Prod.mk.injEq]
      exact ⟨Int.toNat_of_nonneg (by omega), trivial⟩

/-! ### Zero-padded numerals (`%02d`, `%04d`, `%06d`) and fixed-width parsing -/

/-- Python `"%0*d"` formatting: left-pad the decimal digits with zeros. -/
def padNum (w : Nat) (n : Nat) : List Char :=
  List.replicate (w - (natToChars n).length) '0' ++ natToChars n

/-- Exactly `w` decimal digits (the regex `\d{w}`), returning their value. -/
def parseFixed (w : Nat) (cs : List Char) : Option (Nat × List Char) :=
  let pre := cs.take w
  if pre.length = w && pre.all Char.isDigit then some (foldDigits 0 pre, cs.drop w)
  else none

theorem length_natToChars_le (w n : Nat) (hw : 1 ≤ w) (hn : n < 10 ^ w) :
    (natToChars n).length ≤ w := by
  induction n using natToChars.induct generalizing w with
  | case1 n h =>
    rw [natToChars, dif_pos h]
    simpa using hw
  | case2 n h ih =>
    rw [natToChars, dif_neg h]
    simp only [List.length_append, List.length_singleton]
    have hw2 : 2 ≤ w := by
      by_contra hcon
      have : w = 1 := by omega
      subst this
      simp at hn
      omega
    have hdiv : n / 10 < 10 ^ (w - 1) := by
      rw [Nat.div_lt_iff_lt_mul (by omega)]
      calc n < 10 ^ w := hn
        _ = 10 ^ (w - 1) * 10 := by
          rw [← pow_succ]
          congr 1
          omega
    have := ih (w - 1) (by omega) hdiv
    omega

theorem length_padNum (w n : Nat) (hw : 1 ≤ w) (hn : n < 10 ^ w) :
    (padNum w n).length = w := by
  have := length_natToChars_le w n hw hn
  simp only [padNum, List.length_append, List.length_replicate]
  omega

theorem padNum_digits (w n : Nat) : ∀ c ∈ padNum w n, c.isDigit := by
  intro c hc
  rcases List.mem_append.1 hc with h1 | h1
  · rw [List.eq_of_mem_replicate h1]
    decide
  · exact natToChars_digits n c h1

theorem foldDigits_padNum (w n : Nat) : foldDigits 0 (padNum w n) = n := by
  have hzeros : ∀ k, foldDigits 0 (List.replicate k '0') = 0 := by
    intro k
    induction k with
    | zero => rfl
    | succ k ih =>
      simp only [List.replicate_succ, foldDigits, List.foldl_cons]
      have : (10 * 0 + digitVal '0') = 0 := by decide
      rw [this]
      exact ih
  simp only [padNum, foldDigits, List.foldl_append]
  rw [show List.foldl (fun a c => 10 * a + digitVal c) 0
      (List.replicate (w - (natToChars n).length) '0') =
      foldDigits 0 (List.replicate (w - (natToChars n).length) '0') from rfl,
    hzeros]
  exact foldDigits_zero_natToChars n

theorem parseFixed_padNum (w n : Nat) (rest : List Char) (hw : 1 ≤ w) (hn : n < 10 ^ w) :
    parseFixed w (padNum w n ++ rest) = some (n, rest) := by
  have hlen : (padNum w n).length = w := length_padNum w n hw hn
  simp only [parseFixed]
  rw [List.take_left' hlen, List.drop_left' hlen]
  have hall : (padNum w n).all Char.isDigit = true := by
    rw [List.all_eq_true]
    intro c hc
    exact padNum_digits w n c hc
  rw [hlen]
  simp only [hall, Bool.and_true]
  simp [foldDigits_padNum w n]

/-- The regex group `\d{1,2}` with maximal munch. -/
def parse1or2 (cs : List Char) : Option (Nat × List Char) :=
  match cs with
  | [] => none
  | c1 :: r1 =>
    if c1.isDigit then
      match r1 with
      | c2 :: r2 =>
        if c2.isDigit then some (digitVal c1 * 10 + digitVal c2, r2)
        else some (digitVal c1, r1)
      | [] => some (digitVal c1, [])
    else none

theorem padNum2_eq (n : Nat) (hn : n < 100) :
    padNum 2 n = [Nat.digitChar (n / 10), Nat.digitChar (n % 10)] := by
  by_cases h : n < 10
  · have h1 : natToChars n = [Nat.digitChar n] := by rw [natToChars, dif_pos h]
    have h2 : n / 10 = 0 := by omega
    have h3 : n % 10 = n := by omega
    simp [padNum, h1, h2, h3, List.replicate]
    decide
  · have h1 : natToChars n = natToChars (n / 10) ++ [Nat.digitChar (n % 10)] := by
      rw [natToChars, dif_neg h]
    have h2 : natToChars (n / 10) = [Nat.digitChar (n / 10)] := by
      rw [natToChars, dif_pos (by omega)]
    simp [padNum, h1, h2]

theorem parse1or2_padNum (n : Nat) (rest : List Char) (hn : n < 100) :
    parse1or2 (padNum 2 n ++ rest) = some (n, rest) := by
  rw [padNum2_eq n hn]
  have hd1 : (Nat.digitChar (n / 10)).isDigit := digitChar_isDigit _ (by omega)
  have hd2 : (Nat.digitChar (n % 10)).isDigit := digitChar_isDigit _ (Nat.mod_lt _ (by omega))
  simp only [List.cons_append, List.nil_append, parse1or2, hd1, hd2, if_true]
  rw [digitVal_digitChar _ (by omega : n / 10 < 10),
    digitVal_digitChar _ (Nat.mod_lt _ (by omega) : n % 10 < 10)]
  congr 1
  congr 1
  omega

/-! ### JSON string escaping (`json.dumps`) and string-literal parsing -/

/-- Escape one character as `json.dumps` does inside a string literal:
the two mandatory escapes, the short control escapes, `\u00XX` for the
remaining control characters, and everything else literally. -/
def escapeChar (c : Char) : List Char :=
  if c = '"' then ['\\', '"']
  else if c = '\\' then ['\\', '\\']
  else if c = '\n' then ['\\', 'n']
  else if c = '\r' then ['\\', 'r']
  else if c = '\t' then ['\\', 't']
  else if c = Char.ofNat 8 then ['\\', 'b']
  else if c = Char.ofNat 12 then ['\\', 'f']
  else if c.toNat < 32 then
    ['\\', 'u', '0', '0', Nat.digitChar (c.toNat / 16), Nat.digitChar (c.toNat % 16)]
  else [c]

/-- A complete JSON string literal for `s`, quotes included. -/
def encodeJsonString (s : List Char) : List Char :=
  '"' :: s.flatMap escapeChar ++ ['"']

/-- Value of a hexadecimal digit (both cases), as in JSON `\uXXXX`. -/
def hexVal (c : Char) : Option Nat :=
  if c.isDigit then some (c.toNat - 48)
  else if 'a' ≤ c ∧ c ≤ 'f' then some (c.toNat - 87)
  else if 'A' ≤ c ∧ c ≤ 'F' then some (c.toNat - 55)
  else none

/-- The single-character JSON escapes. -/
def simpleEsc (e : Char) : Option Char :=
  if e = '"' then some '"'
  else if e = '\\' then some '\\'
  else if e = '/' then some '/'
  else if e = 'n' then some '\n'
  else if e = 'r' then some '\r'
  else if e = 't' then some '\t'
  else if e = 'b' then some (Char.ofNat 8)
  else if e = 'f' then some (Char.ofNat 12)
  else none

/-- Parse the body of a JSON string literal (the opening quote already
consumed), up to and including the closing quote.  Mirrors `json.loads` in
strict mode: raw control characters are rejected, escapes are decoded,
`\uXXXX` surrogate-half escapes are rejected (see the module comment). -/
def parseStringBody : List Char → Option (List Char × List Char)
  | [] => none
  | c :: r =>
    if c = '"' then some ([], r)
    else if c = '\\' then
      match r with
      | [] => none
      | e :: r2 =>
        if e = 'u' then
          match r2 with
          | h1 :: h2 :: h3 :: h4 :: r3 =>
            match hexVal h1, hexVal h2, hexVal h3, hexVal h4 with
            | some a, some b, some x, some d =>
              let n := ((a * 16 + b) * 16 + x) * 16 + d
              if n < 55296 ∨ 57343 < n then
                (parseStringBody r3).map (fun p => (Char.ofNat n :: p.1, p.2))
              else none
            | _, _, _, _ => none
          | _ => none
        else
          match simpleEsc e with
          | some ec => (parseStringBody r2).map (fun p => (ec :: p.1, p.2))
          | none => none
    else if c.toNat < 32 then none
    else (parseStringBody r).map (fun p => (c :: p.1, p.2))

theorem hexVal_digitChar : ∀ d : Nat, d < 16 → hexVal (Nat.digitChar d) = some d := by decide

theorem escape_step (c : Char) (tail : List Char) :
    parseStringBody (escapeChar c ++ tail) =
      (parseStringBody tail).map (fun p => (c :: p.1, p.2)) := by
  unfold escapeChar
  split_ifs with h1 h2 h3 h4 h5 h6 h7 h8
  · subst h1; rw [parseStringBody.eq_def]; simp [simpleEsc]
  · subst h2; rw [parseStringBody.eq_def]; simp [simpleEsc]
  · subst h3; rw [parseStringBody.eq_def]; simp [simpleEsc]
  · subst h4; rw [parseStringBody.eq_def]; simp [simpleEsc]
  · subst h5; rw [parseStringBody.eq_def]; simp [simpleEsc]
  · subst h6; rw [parseStringBody.eq_def]; simp [simpleEsc]
  · subst h7; rw [parseStringBody.eq_def]; simp [simpleEsc]
  · simp only [List.cons_append, List.nil_append]
    rw [parseStringBody.eq_def]
    simp [hexVal_digitChar _ (show c.toNat / 16 < 16 by omega),
      hexVal_digitChar _ (Nat.mod_lt _ (by omega : (0:Nat) < 16)),
      show hexVal '0' = some 0 from by decide]
    have harith : c.toNat / 16 * 16 + c.toNat % 16 = c.toNat := by omega
    rw [harith, if_pos (by omega : c.toNat < 55296 ∨ 57343 < c.toNat), Char.ofNat_toNat]
  · simp only [List.cons_append, List.nil_append]
    rw [parseStringBody.eq_def]
    simp only []
    rw [if_neg h1, if_neg h2, if_neg (show ¬ c.toNat < 32 by omega)]

theorem parseStringBody_encoded (s : List Char) (rest : List Char) :
    parseStringBody (s.flatMap escapeChar ++ '"' :: rest) = some (s, rest) := by
  induction s with
  | nil =>
    rw [List.flatMap_nil, List.nil_append, parseStringBody.eq_def]
    simp
  | cons c s ih =>
    rw [List.flatMap_cons, List.append_assoc, escape_step, ih]
    rfl

theorem newline_not_mem_escapeChar (c : Char) : '\n' ∉ escapeChar c := by
  unfold escapeChar
  split_ifs with h1 h2 h3 h4 h5 h6 h7 h8
  · decide
  · decide
  · decide
  · decide
  · decide
  · decide
  · decide
  · intro hmem
    have hdiv : c.toNat / 16 < 16 := by omega
    have hmod : c.toNat % 16 < 16 := Nat.mod_lt _ (by omega)
    have hd : ∀ d : Nat, d < 16 → Nat.digitChar d ≠ '\n' := by decide
    simp only [List.mem_cons, List.not_mem_nil, or_false] at hmem
    rcases hmem with h | h | h | h | h | h <;>
      first
        | exact absurd h (by decide)
        | exact absurd h (hd _ hdiv).symm
        | exact absurd h (hd _ hmod).symm
  · intro hmem
    simp only [List.mem_singleton] at hmem
    rw [← hmem] at h8
    exact h8 (by decide)

theorem newline_not_mem_flatMap_escape (s : List Char) : '\n' ∉ s.flatMap escapeChar := by
  intro hmem
  rcases List.mem_flatMap.1 hmem with ⟨c, _, hc⟩
  exact newline_not_mem_escapeChar c hc

theorem newline_not_mem_natToChars (n : Nat) : '\n' ∉ natToChars n := by
  intro hmem
  have := natToChars_digits n _ hmem
  exact absurd this (by decide)

theorem newline_not_mem_intToChars (v : Int) : '\n' ∉ intToChars v := by
  unfold intToChars
  split_ifs
  · intro hmem
    rcases List.mem_cons.1 hmem with h | h
    · exact absurd h (by decide)
    · exact newline_not_mem_natToChars _ h
  · exact newline_not_mem_natToChars _

theorem newline_not_mem_padNum (w n : Nat) : '\n' ∉ padNum w n := by
  intro hmem
  have := padNum_digits w n _ hmem
  exact absurd this (by decide)

/-! ### JSON values and `json.loads` -/

/-- A JSON value as produced by `json.loads` (numbers restricted to
integers, see the module comment). -/
inductive Json where
  | null
  | bool (b : Bool)
  | num (n : Int)
  | str (s : List Char)
  | arr (elems : List Json)
  | obj (fields : List (List Char × Json))

/-- JSON insignificant whitespace. -/
def isWs (c : Char) : Bool := c = ' ' || c = '\t' || c = '\n' || c = '\r'

def skipWs : List Char → List Char
  | [] => []
  | c :: cs => if isWs c then skipWs cs else c :: cs

mutual

/-- Parse one JSON value (recursion depth bounded by `fuel`, which the
top-level entry point makes large enough for any input). -/
def parseValue : Nat → List Char → Option (Json × List Char)
  | 0, _ => none
  | fuel+1, cs0 =>
    match skipWs cs0 with
    | [] => none
    | c :: r =>
      if c = '"' then (parseStringBody r).map (fun p => (Json.str p.1, p.2))
      else if c = '{' then
        match skipWs r with
        | '}' :: r2 => some (Json.obj [], r2)
        | r1 => (parseMembers fuel r1).map (fun p => (Json.obj p.1, p.2))
      else if c = '[' then
        match skipWs r with
        | ']' :: r2 => some (Json.arr [], r2)
        | r1 => (parseElements fuel r1).map (fun p => (Json.arr p.1, p.2))
      else if c = 'n' then
        if r.take 3 = ['u', 'l', 'l'] then some (Json.null, r.drop 3) else none
      else if c = 't' then
        if r.take 3 = ['r', 'u', 'e'] then some (Json.bool true, r.drop 3) else none
      else if c = 'f' then
        if r.take 4 = ['a', 'l', 's', 'e'] then some (Json.bool false, r.drop 4) else none
      else (parseJsonInt (c :: r)).map (fun p => (Json.num p.1, p.2))

/-- Parse the members of a JSON object after the opening brace (at least
one member), including the closing brace. -/
def parseMembers : Nat → List Char → Option (List (List Char × Json) × List Char)
  | 0, _ => none
  | fuel+1, cs =>
    match skipWs cs with
    | '"' :: r =>
      (parseStringBody r).bind (fun kp =>
        match skipWs kp.2 with
        | ':' :: r2 =>
          (parseValue fuel r2).bind (fun vp =>
            match skipWs vp.2 with
            | ',' :: r4 => (parseMembers fuel r4).map (fun mp => ((kp.1, vp.1) :: mp.1, mp.2))
            | '}' :: r4 => some ([(kp.1, vp.1)], r4)
            | _ => none)
        | _ => none)
    | _ => none

/-- Parse the elements of a JSON array after the opening bracket (at
least one element), including the closing bracket. -/
def parseElements : Nat → List Char → Option (List Json × List Char)
  | 0, _ => none
  | fuel+1, cs =>
    (parseValue fuel cs).bind (fun vp =>
      match skipWs vp.2 with
      | ',' :: r2 => (parseElements fuel r2).map (fun ep => (vp.1 :: ep.1, ep.2))
      | ']' :: r2 => some ([vp.1], r2)
      | _ => none)

end

/-- `json.loads`: parse one value, then require only whitespace to
follow.  The fuel `length + 1` dominates any possible nesting depth. -/
def jsonLoads (cs : List Char) : Option Json :=
  match parseValue (cs.length + 1) cs with
  | some (v, rest) => if skipWs rest = [] then some v else none
  | none => none

theorem skipWs_cons (c : Char) (cs : List Char) (h : isWs c = false) :
    skipWs (c :: cs) = c :: cs := by
  simp [skipWs, h]

theorem intToChars_head (v : Int) :
    ∃ c t, intToChars v = c :: t ∧ (c = '-' ∨ c.isDigit) := by
  unfold intToChars
  split_ifs
  · exact ⟨'-', _, rfl, Or.inl rfl⟩
  · rcases h : natToChars v.toNat with _ | ⟨c, t⟩
    · exact absurd h (natToChars_ne_nil _)
    · refine ⟨c, t, rfl, Or.inr ?_⟩
      have := natToChars_digits v.toNat
      rw [h] at this
      exact this c (by simp)

theorem parseValue_str (f : Nat) (s rest : List Char) :
    parseValue (f + 1) (encodeJsonString s ++ rest) = some (Json.str s, rest) := by
  have hshape : encodeJsonString s ++ rest = '"' :: (s.flatMap escapeChar ++ '"' :: rest) := by
    simp [encodeJsonString]
  rw [hshape]
  simp only [parseValue]
  rw [skipWs_cons _ _ (by decide)]
  simp [parseStringBody_encoded]

theorem parseValue_null (f : Nat) (rest : List Char) :
    parseValue (f + 1) (['n', 'u', 'l', 'l'] ++ rest) = some (Json.null, rest) := by
  simp only [List.cons_append, List.nil_append, parseValue]
  rw [skipWs_cons _ _ (by decide)]
  simp

theorem parseValue_num (f : Nat) (v : Int) (rest : List Char) (hrest : noDigitHead rest) :
    parseValue (f + 1) (intToChars v ++ rest) = some (Json.num v, rest) := by
  obtain ⟨c, t, hsplit, hc⟩ := intToChars_head v
  have hnw : isWs c = false := by
    rcases hc with hneg | hdig
    · subst hneg; decide
    · by_contra hw
      simp only [Bool.not_eq_false] at hw
      simp only [isWs, Bool.or_eq_true, decide_eq_true_eq] at hw
      rcases hw with ((h | h) | h) | h <;> (subst h; exact absurd hdig (by decide))
  have hneq : c ≠ '"' ∧ c ≠ '{' ∧ c ≠ '[' ∧ c ≠ 'n' ∧ c ≠ 't' ∧ c ≠ 'f' := by
    rcases hc with hneg | hdig
    · subst hneg
      exact ⟨by decide, by decide, by decide, by decide, by decide, by decide⟩
    · refine ⟨?_, ?_, ?_, ?_, ?_, ?_⟩ <;> (intro hEq; subst hEq; exact absurd hdig (by decide))
  rw [hsplit, List.cons_append]
  simp only [parseValue]
  rw [skipWs_cons _ _ hnw]
  simp only []
  rw [if_neg hneq.1, if_neg hneq.2.1, if_neg hneq.2.2.1, if_neg hneq.2.2.2.1,
    if_neg hneq.2.2.2.2.1, if_neg hneq.2.2.2.2.2]
  rw [← List.cons_append, ← hsplit, parseJsonInt_intToChars v rest hrest]
  rfl

theorem parseValue_space (f : Nat) (cs : List Char) :
    parseValue f (' ' :: cs) = parseValue f cs := by
  cases f with
  | zero => rfl
  | succ f =>
    simp only [parseValue]
    rw [show skipWs (' ' :: cs) = skipWs cs from by simp [skipWs, isWs]]

theorem parseMembers_space (f : Nat) (cs : List Char) :
    parseMembers f (' ' :: cs) = parseMembers f cs := by
  cases f with
  | zero => rfl
  | succ f =>
    simp only [parseMembers]
    rw [show skipWs (' ' :: cs) = skipWs cs from by simp [skipWs, isWs]]

theorem parseMembers_more (f : Nat) (k vcs tail rest : List Char) (v : Json)
    (ms : List (List Char × Json))
    (hv : parseValue f (vcs ++ ',' :: ' ' :: tail) = some (v, ',' :: ' ' :: tail))
    (hms : parseMembers f (' ' :: tail) = some (ms, rest)) :
    parseMembers (f + 1) (encodeJsonString k ++ ':' :: ' ' :: (vcs ++ ',' :: ' ' :: tail)) =
      some ((k, v) :: ms, rest) := by
  have hshape : encodeJsonString k ++ ':' :: ' ' :: (vcs ++ ',' :: ' ' :: tail) =
      '"' :: (k.flatMap escapeChar ++ '"' :: (':' :: ' ' :: (vcs ++ ',' :: ' ' :: tail))) := by
    simp [encodeJsonString]
  rw [hshape, parseMembers]
  rw [skipWs_cons _ _ (by decide)]
  simp only [parseStringBody_encoded, Option.bind_eq_bind, Option.some_bind]
  rw [skipWs_cons _ _ (by decide)]
  simp only []
  rw [parseValue_space, hv]
  simp only [Option.some_bind]
  rw [skipWs_cons _ _ (by decide)]
  simp only []
  rw [hms]
  rfl

theorem parseMembers_last (f : Nat) (k vcs rest : List Char) (v : Json)
    (hv : parseValue f (vcs ++ '}' :: rest) = some (v, '}' :: rest)) :
    parseMembers (f + 1) (encodeJsonString k ++ ':' :: ' ' :: (vcs ++ '}' :: rest)) =
      some ([(k, v)], rest) := by
  have hshape : encodeJsonString k ++ ':' :: ' ' :: (vcs ++ '}' :: rest) =
      '"' :: (k.flatMap escapeChar ++ '"' :: (':' :: ' ' :: (vcs ++ '}' :: rest))) := by
    simp [encodeJsonString]
  rw [hshape, parseMembers]
  rw [skipWs_cons _ _ (by decide)]
  simp only [parseStringBody_encoded, Option.bind_eq_bind, Option.some_bind]
  rw [skipWs_cons _ _ (by decide)]
  simp only []
  rw [parseValue_space, hv]
  simp only [Option.some_bind]
  rw [skipWs_cons _ _ (by decide)]
  rfl

/-! ### `datetime`: calendar fields, `isoformat`, and pydantic parsing -/

/-- A Python `datetime.datetime`: calendar fields plus an optional UTC
offset in whole minutes (`none` for a naive value). -/
structure Datetime where
  year : Nat
  month : Nat
  day : Nat
  hour : Nat
  minute : Nat
  second : Nat
  microsecond : Nat
  tzOffset : Option Int
deriving DecidableEq

def isLeap (y : Nat) : Bool := (y % 4 == 0 && !(y % 100 == 0)) || y % 400 == 0

def daysInMonth (y m : Nat) : Nat :=
  if m = 2 then (if isLeap y then 29 else 28)
  else if m = 4 ∨ m = 6 ∨ m = 9 ∨ m = 11 then 30
  else 31

/-- The range checks of the `datetime` constructor. -/
def FieldsValid (y mo d h mi s us : Nat) : Prop :=
  1 ≤ y ∧ y ≤ 9999 ∧ 1 ≤ mo ∧ mo ≤ 12 ∧ 1 ≤ d ∧ d ≤ daysInMonth y mo ∧
    h ≤ 23 ∧ mi ≤ 59 ∧ s ≤ 59 ∧ us ≤ 999999

instance (y mo d h mi s us : Nat) : Decidable (FieldsValid y mo d h mi s us) := by
  unfold FieldsValid
  infer_instance

/-- The range check of `datetime.timezone`: offsets are strictly within
one day (whole minutes, so at most 1439 in absolute value). -/
def tzValid : Option Int → Prop
  | none => True
  | some off => off.natAbs ≤ 1439

instance (tz : Option Int) : Decidable (tzValid tz) := by
  unfold tzValid
  cases tz <;> infer_instance

def Datetime.Valid (dt : Datetime) : Prop :=
  FieldsValid dt.year dt.month dt.day dt.hour dt.minute dt.second dt.microsecond ∧
    tzValid dt.tzOffset

/-- Construct a `datetime` value, failing (`ValueError`) when a field is
out of range, as the Python constructor does. -/
def mkDatetime (y mo d h mi s us : Nat) (tz : Option Int) : Option Datetime :=
  if FieldsValid y mo d h mi s us ∧ tzValid tz then
    some ⟨y, mo, d, h, mi, s, us, tz⟩
  else none

/-- `utcoffset` rendering inside `datetime.isoformat`: a sign and
zero-padded hours and minutes. -/
def tzChars : Option Int → List Char
  | none => []
  | some off =>
    (if off < 0 then '-' else '+') ::
      (padNum 2 (off.natAbs / 60) ++ ':' :: padNum 2 (off.natAbs % 60))

/-- Python `datetime.isoformat()`: date, `T`, time, microseconds only if
non-zero, offset only if aware. -/
def Datetime.isoformat (dt : Datetime) : List Char :=
  padNum 4 dt.year ++ '-' :: (padNum 2 dt.month ++ '-' :: (padNum 2 dt.day ++ 'T' ::
    (padNum 2 dt.hour ++ ':' :: (padNum 2 dt.minute ++ ':' :: (padNum 2 dt.second ++
      ((if dt.microsecond = 0 then [] else '.' :: padNum 6 dt.microsecond) ++
        tzChars dt.tzOffset))))))

def expectChar (c : Char) : List Char → Option (List Char)
  | [] => none
  | x :: r => if x = c then some r else none

/-- The regex class `[T ]` between date and time. -/
def parseDateSep : List Char → Option (List Char)
  | [] => none
  | x :: r => if x = 'T' ∨ x = ' ' then some r else none

/-- The regex fragment `\.(\d{1,6})\d{0,6}` after the seconds: one to six
captured digits (right-padded to microseconds), up to six more discarded. -/
def parseMicro (cs : List Char) : Option (Nat × List Char) :=
  let ds := (cs.take 6).takeWhile Char.isDigit
  if ds.length = 0 then none
  else
    let r1 := cs.drop ds.length
    let skipped := (r1.take 6).takeWhile Char.isDigit
    let r2 := r1.drop skipped.length
    if noDigitHead r2 then some (foldDigits 0 ds * 10 ^ (6 - ds.length), r2) else none

/-- The regex fragment `\d{2}(?::?\d{2})?` after a tz sign, in minutes. -/
def parseTzHM (cs : List Char) : Option (Int × List Char) :=
  (parseFixed 2 cs).bind (fun p =>
    match p.2 with
    | ':' :: r2 =>
      match parseFixed 2 r2 with
      | some q => some (((p.1 * 60 + q.1 : Nat) : Int), q.2)
      | none => some (((p.1 * 60 : Nat) : Int), ':' :: r2)
    | r1 =>
      match parseFixed 2 r1 with
      | some q => some (((p.1 * 60 + q.1 : Nat) : Int), q.2)
      | none => some (((p.1 * 60 : Nat) : Int), r1))

/-- The optional tz group `Z|[+-]\d{2}(?::?\d{2})?`. -/
def parseTz (cs : List Char) : Option (Option Int × List Char) :=
  match cs with
  | 'Z' :: r => some (some 0, r)
  | '+' :: r => (parseTzHM r).map (fun p => (some p.1, p.2))
  | '-' :: r => (parseTzHM r).map (fun p => (some (-p.1), p.2))
  | _ => some (none, cs)

/-- The optional seconds-and-microseconds group, defaulting to zero. -/
def parseSecondsOpt (cs : List Char) : Option ((Nat × Nat) × List Char) :=
  match cs with
  | ':' :: r =>
    (parse1or2 r).bind (fun p =>
      match p.2 with
      | '.' :: r2 => (parseMicro r2).map (fun q => ((p.1, q.1), q.2))
      | r1 => some ((p.1, 0), r1))
  | _ => some ((0, 0), cs)

/-- pydantic v1 `parse_datetime` on a string: the anchored regular
expression described in the module comment, then the constructor's range
checks. -/
def parseDatetime (cs : List Char) : Option Datetime :=
  (parseFixed 4 cs).bind (fun py =>
  (expectChar '-' py.2).bind (fun r2 =>
  (parse1or2 r2).bind (fun pmo =>
  (expectChar '-' pmo.2).bind (fun r4 =>
  (parse1or2 r4).bind (fun pd =>
  (parseDateSep pd.2).bind (fun r6 =>
  (parse1or2 r6).bind (fun ph =>
  (expectChar ':' ph.2).bind (fun r8 =>
  (parse1or2 r8).bind (fun pmi =>
  (parseSecondsOpt pmi.2).bind (fun ps =>
  (parseTz ps.2).bind (fun ptz =>
  if ptz.2 = [] then mkDatetime py.1 pmo.1 pd.1 ph.1 pmi.1 ps.1.1 ps.1.2 ptz.1
  else none)))))))))))

theorem takeWhile_all (p : Char → Bool) (l : List Char) (h : ∀ c ∈ l, p c) :
    l.takeWhile p = l := by
  induction l with
  | nil => rfl
  | cons c cs ih =>
    rw [List.takeWhile_cons, if_pos (h c (by simp))]
    rw [ih (fun x hx => h x (by simp [hx]))]

theorem takeWhile_isDigit_nil (l : List Char) (h : noDigitHead l) (k : Nat) :
    (l.take k).takeWhile Char.isDigit = [] := by
  cases l with
  | nil => simp
  | cons c cs =>
    cases k with
    | zero => simp
    | succ k =>
      simp only [noDigitHead, Bool.not_eq_true'] at h
      simp [List.take_succ_cons, List.takeWhile_cons, h]

theorem parseMicro_padNum (us : Nat) (rest : List Char) (hus : us ≤ 999999)
    (hr : noDigitHead rest) : parseMicro (padNum 6 us ++ rest) = some (us, rest) := by
  have hlen : (padNum 6 us).length = 6 := length_padNum 6 us (by omega) (by omega)
  simp only [parseMicro]
  rw [List.take_left' hlen, takeWhile_all _ _ (padNum_digits 6 us), hlen,
    List.drop_left' hlen, takeWhile_isDigit_nil rest hr 6]
  simp only [List.length_nil, List.drop_zero, if_neg (by omega : ¬(6 : Nat) = 0), hr, if_true]
  rw [foldDigits_padNum]
  norm_num

theorem parseTzHM_print (a : Nat) (rest : List Char) (ha : a ≤ 1439) :
    parseTzHM (padNum 2 (a / 60) ++ ':' :: (padNum 2 (a % 60) ++ rest)) =
      some ((a : Int), rest) := by
  simp only [parseTzHM]
  rw [parseFixed_padNum 2 (a / 60) _ (by omega) (by omega)]
  simp only [Option.some_bind]
  rw [parseFixed_padNum 2 (a % 60) rest (by omega) (by omega)]
  show some (((a / 60 * 60 + a % 60 : Nat) : Int), rest) = _
  rw [show a / 60 * 60 + a % 60 = a from by omega]

theorem noDigitHead_tzChars (tz : Option Int) : noDigitHead (tzChars tz) = true := by
  cases tz with
  | none => rfl
  | some off =>
    simp only [tzChars]
    split_ifs <;> rfl

theorem parseTz_print (tz : Option Int) (htz : tzValid tz) :
    parseTz (tzChars tz) = some (tz, []) := by
  cases tz with
  | none => rfl
  | some off =>
    have ha : off.natAbs ≤ 1439 := htz
    simp only [tzChars]
    by_cases hoff : off < 0
    · rw [if_pos hoff]
      have hshape : padNum 2 (off.natAbs / 60) ++ ':' :: padNum 2 (off.natAbs % 60) =
          padNum 2 (off.natAbs / 60) ++ ':' :: (padNum 2 (off.natAbs % 60) ++ []) := by
        simp
      rw [hshape]
      show (parseTzHM _).map _ = _
      rw [parseTzHM_print off.natAbs [] ha]
      simp only [Option.map_some']
      rw [show -((off.natAbs : Nat) : Int) = off from by omega]
    · rw [if_neg hoff]
      have hshape : padNum 2 (off.natAbs / 60) ++ ':' :: padNum 2 (off.natAbs % 60) =
          padNum 2 (off.natAbs / 60) ++ ':' :: (padNum 2 (off.natAbs % 60) ++ []) := by
        simp
      rw [hshape]
      show (parseTzHM _).map _ = _
      rw [parseTzHM_print off.natAbs [] ha]
      simp only [Option.map_some']
      rw [show ((off.natAbs : Nat) : Int) = off from by omega]

theorem tzChars_some_shape (off : Int) :
    ∃ c X, tzChars (some off) = c :: X ∧ (c = '-' ∨ c = '+') := by
  simp only [tzChars]
  by_cases hoff : off < 0
  · exact ⟨'-', _, by rw [if_pos hoff], Or.inl rfl⟩
  · exact ⟨'+', _, by rw [if_neg hoff], Or.inr rfl⟩

theorem daysInMonth_le (y m : Nat) : daysInMonth y m ≤ 31 := by
  unfold daysInMonth
  split_ifs <;> omega

theorem expectChar_cons (c : Char) (r : List Char) : expectChar c (c :: r) = some r := by
  simp [expectChar]

theorem parseSecondsOpt_print (s us : Nat) (tz : Option Int) (hs : s < 100)
    (hus : us ≤ 999999) :
    parseSecondsOpt (':' :: (padNum 2 s ++
      ((if us = 0 then [] else '.' :: padNum 6 us) ++ tzChars tz))) =
      some ((s, us), tzChars tz) := by
  simp only [parseSecondsOpt]
  rw [parse1or2_padNum s _ hs]
  simp only [Option.some_bind]
  by_cases hzero : us = 0
  · subst hzero
    simp only [if_pos rfl, List.nil_append]
    cases tz with
    | none => rfl
    | some off =>
      obtain ⟨c, X, hshape, hc⟩ := tzChars_some_shape off
      rw [hshape]
      have hcne : c ≠ '.' := by rcases hc with h | h <;> (subst h; decide)
      split
      · rename_i r2 heq
        injection heq with h1 _
        exact absurd h1 hcne
      · rfl
  · rw [if_neg hzero, List.cons_append]
    simp only []
    rw [parseMicro_padNum us (tzChars tz) hus (noDigitHead_tzChars tz)]
    rfl

theorem parseDateSep_T (r : List Char) : parseDateSep ('T' :: r) = some r := by
  simp [parseDateSep]

theorem parseDatetime_isoformat (dt : Datetime) (hdt : dt.Valid) :
    parseDatetime dt.isoformat = some dt := by
  obtain ⟨y, mo, d, h, mi, s, us, tz⟩ := dt
  obtain ⟨⟨hy1, hy2, hmo1, hmo2, hd1, hd2, hh, hmi2, hs, hus⟩, htz⟩ := hdt
  dsimp only at hy1 hy2 hmo1 hmo2 hd1 hd2 hh hmi2 hs hus htz
  have hiso : Datetime.isoformat ⟨y, mo, d, h, mi, s, us, tz⟩ =
      padNum 4 y ++ '-' :: (padNum 2 mo ++ '-' :: (padNum 2 d ++ 'T' ::
        (padNum 2 h ++ ':' :: (padNum 2 mi ++ ':' :: (padNum 2 s ++
          ((if us = 0 then [] else '.' :: padNum 6 us) ++ tzChars tz)))))) := rfl
  rw [hiso]
  unfold parseDatetime
  rw [parseFixed_padNum 4 y _ (by omega) (by omega)]
  simp only [Option.some_bind]
  rw [expectChar_cons]
  simp only [Option.some_bind]
  rw [parse1or2_padNum mo _ (by omega)]
  simp only [Option.some_bind]
  rw [expectChar_cons]
  simp only [Option.some_bind]
  rw [parse1or2_padNum d _ (by have := daysInMonth_le y mo; omega)]
  simp only [Option.some_bind]
  rw [parseDateSep_T]
  simp only [Option.some_bind]
  rw [parse1or2_padNum h _ (by omega)]
  simp only [Option.some_bind]
  rw [expectChar_cons]
  simp only [Option.some_bind]
  rw [parse1or2_padNum mi _ (by omega)]
  simp only [Option.some_bind]
  rw [parseSecondsOpt_print s us tz (by omega) hus]
  simp only [Option.some_bind]
  rw [parseTz_print tz htz]
  simp only [Option.some_bind, if_pos rfl]
  have hcond : FieldsValid y mo d h mi s us ∧ tzValid tz := by
    refine ⟨?_, htz⟩
    unfold FieldsValid
    exact ⟨hy1, hy2, hmo1, hmo2, hd1, hd2, hh, hmi2, hs, hus⟩
  simp only [mkDatetime]
  rw [if_pos hcond]
  simp

/-! ### `PasteMeta`: records, pydantic validation, and the line codec -/

def CURRENT_PASTE_META_VERSION : Int := 1

/-- `helpers.PasteMeta`: version, id, creation time, optional expiry. -/
structure PasteMeta where
  version : Int
  paste_id : List Char
  creation_dt : Datetime
  expire_dt : Option Datetime
deriving DecidableEq

/-- `core.models.PasteMeta`: the `core` module variant, which adds the
optional `lexer_name` and `title` fields. -/
structure ModelsPasteMeta where
  version : Int
  paste_id : List Char
  creation_dt : Datetime
  expire_dt : Option Datetime
  lexer_name : Option (List Char)
  title : Option (List Char)
deriving DecidableEq

def versionKey : List Char := "version".data
def pasteIdKey : List Char := "paste_id".data
def creationKey : List Char := "creation_dt".data
def expireKey : List Char := "expire_dt".data
def lexerNameKey : List Char := "lexer_name".data
def titleKey : List Char := "title".data

/-- Lookup in the dict built by `json.loads`: on duplicate keys the last
occurrence wins, as in Python dict construction. -/
def findField (fields : List (List Char × Json)) (key : List Char) : Option Json :=
  (fields.reverse.find? (fun e => e.1 == key)).map (fun e => e.2)

/-- pydantic v1 validation of an `int` field from a JSON value. -/
def validateInt : Json → Except Unit Int
  | Json.num n => Except.ok n
  | _ => Except.error ()

/-- pydantic v1 validation of a `str` field from a JSON value. -/
def validateStr : Json → Except Unit (List Char)
  | Json.str s => Except.ok s
  | _ => Except.error ()

/-- pydantic v1 validation of a `datetime` field from a JSON value. -/
def validateDatetime : Json → Except Unit Datetime
  | Json.str s =>
    match parseDatetime s with
    | some dt => Except.ok dt
    | none => Except.error ()
  | _ => Except.error ()

/-- pydantic v1 validation of an `Optional[datetime]` field. -/
def validateOptDatetime : Json → Except Unit (Option Datetime)
  | Json.null => Except.ok none
  | j => (validateDatetime j).map some

/-- pydantic v1 validation of an `Optional[str]` field. -/
def validateOptStr : Json → Except Unit (Option (List Char))
  | Json.null => Except.ok none
  | Json.str s => Except.ok (some s)
  | _ => Except.error ()

/-- `PasteMetaVersion.parse_raw`: decode the line as JSON and validate
only the `version` field (defaulting to the current version), raising
`ValidationError` (modelled as `Except.error`) on any failure. -/
def pasteMetaVersionParseRaw (line : List Char) : Except Unit Int :=
  match jsonLoads line with
  | some (Json.obj fields) =>
    match findField fields versionKey with
    | none => Except.ok CURRENT_PASTE_META_VERSION
    | some j => validateInt j
  | _ => Except.error ()

/-- `PasteMeta.parse_raw` (helpers variant): decode the line as JSON and
validate all four fields against the schema; unknown fields are ignored. -/
def pasteMetaParseRaw (line : List Char) : Except Unit PasteMeta :=
  match jsonLoads line with
  | some (Json.obj fields) =>
    (match findField fields versionKey with
      | none => Except.ok CURRENT_PASTE_META_VERSION
      | some j => validateInt j).bind (fun v =>
    (match findField fields pasteIdKey with
      | none => Except.error ()
      | some j => validateStr j).bind (fun pid =>
    (match findField fields creationKey with
      | none => Except.error ()
      | some j => validateDatetime j).bind (fun cdt =>
    (match findField fields expireKey with
      | none => Except.ok none
      | some j => validateOptDatetime j).bind (fun edt =>
    Except.ok ⟨v, pid, cdt, edt⟩))))
  | _ => Except.error ()

/-- `PasteMeta.parse_raw` (core.models variant): the same validation plus
the optional `lexer_name` and `title` fields. -/
def modelsParseRaw (line : List Char) : Except Unit ModelsPasteMeta :=
  match jsonLoads line with
  | some (Json.obj fields) =>
    (match findField fields versionKey with
      | none => Except.ok CURRENT_PASTE_META_VERSION
      | some j => validateInt j).bind (fun v =>
    (match findField fields pasteIdKey with
      | none => Except.error ()
      | some j => validateStr j).bind (fun pid =>
    (match findField fields creationKey with
      | none => Except.error ()
      | some j => validateDatetime j).bind (fun cdt =>
    (match findField fields expireKey with
      | none => Except.ok none
      | some j => validateOptDatetime j).bind (fun edt =>
    (match findField fields lexerNameKey with
      | none => Except.ok none
      | some j => validateOptStr j).bind (fun lx =>
    (match findField fields titleKey with
      | none => Except.ok none
      | some j => validateOptStr j).bind (fun ti =>
    Except.ok ⟨v, pid, cdt, edt, lx, ti⟩))))))
  | _ => Except.error ()

/-- The serialized `expire_dt` value: `null` or an ISO string literal. -/
def expireChars : Option Datetime → List Char
  | none => ['n', 'u', 'l', 'l']
  | some d => encodeJsonString d.isoformat

/-- pydantic v1 `PasteMeta.json()` (helpers variant): `json.dumps` of the
field dict in declaration order with the default separators; datetimes
serialized via `isoformat`. -/
def dumpsMeta (m : PasteMeta) : List Char :=
  '{' :: (encodeJsonString versionKey ++ ':' :: ' ' :: (intToChars m.version ++ ',' :: ' ' ::
    (encodeJsonString pasteIdKey ++ ':' :: ' ' :: (encodeJsonString m.paste_id ++ ',' :: ' ' ::
      (encodeJsonString creationKey ++ ':' :: ' ' ::
        (encodeJsonString m.creation_dt.isoformat ++ ',' :: ' ' ::
          (encodeJsonString expireKey ++ ':' :: ' ' ::
            (expireChars m.expire_dt ++ ['}']))))))))

/-- The serialized `expire_dt` as a JSON value. -/
def expireJsonVal : Option Datetime → Json
  | none => Json.null
  | some d => Json.str d.isoformat

/-- The JSON object that `json.loads` recovers from `dumpsMeta`. -/
def metaJson (m : PasteMeta) : List (List Char × Json) :=
  [(versionKey, Json.num m.version),
   (pasteIdKey, Json.str m.paste_id),
   (creationKey, Json.str m.creation_dt.isoformat),
   (expireKey, expireJsonVal m.expire_dt)]

/-- The `PasteMetaException` subclasses raised by metadata decoding,
with the message strings the code interpolates. -/
inductive MetaError where
  | unprocessable (msg : List Char)
  | versionInvalid (version : Int) (msg : List Char)
deriving DecidableEq

def versionInvalidMsg (v : Int) : List Char :=
  "paste is not a valid version number of '".data ++ intToChars v ++ "'".data

def cannotLoadMsg : List Char := "paste meta cannot be loaded".data

def extractMsg (line : List Char) : List Char :=
  "paste meta validation did not pass: '".data ++ line ++ "'".data

/-- `helpers.get_paste_meta`: two-phase decode.  The version-only parse
runs first; a version mismatch raises `PasteMetaVersionInvalid` (which is
not a `ValidationError`, so the surrounding handler does not intercept
it); any `ValidationError` from either phase becomes
`PasteMetaUnprocessable` with a constant message. -/
def get_paste_meta (line : List Char) : Except MetaError PasteMeta :=
  match pasteMetaVersionParseRaw line with
  | Except.error _ => Except.error (MetaError.unprocessable cannotLoadMsg)
  | Except.ok version =>
    if version ≠ CURRENT_PASTE_META_VERSION then
      Except.error (MetaError.versionInvalid version (versionInvalidMsg version))
    else
      match pasteMetaParseRaw line with
      | Except.error _ => Except.error (MetaError.unprocessable cannotLoadMsg)
      | Except.ok m => Except.ok m

/-- `core.models.PasteMeta.extract_from_line`: the same two-phase decode,
but validating the richer schema and carrying the offending line in the
`PasteMetaUnprocessable` message. -/
def extract_from_line (line : List Char) : Except MetaError ModelsPasteMeta :=
  match pasteMetaVersionParseRaw line with
  | Except.error _ => Except.error (MetaError.unprocessable (extractMsg line))
  | Except.ok version =>
    if version ≠ CURRENT_PASTE_META_VERSION then
      Except.error (MetaError.versionInvalid version (versionInvalidMsg version))
    else
      match modelsParseRaw line with
      | Except.error _ => Except.error (MetaError.unprocessable (extractMsg line))
      | Except.ok m => Except.ok m


theorem expireValue_parse (f : Nat) (edt : Option Datetime) (rest : List Char) :
    parseValue (f + 1) (expireChars edt ++ '}' :: rest) = some (expireJsonVal edt, '}' :: rest) := by
  cases edt with
  | none => exact parseValue_null f ('}' :: rest)
  | some d => exact parseValue_str f d.isoformat ('}' :: rest)

theorem metaMembers4 (f : Nat) (edt : Option Datetime) (rest : List Char) :
    parseMembers (f + 2) (encodeJsonString expireKey ++ ':' :: ' ' ::
      (expireChars edt ++ '}' :: rest)) = some ([(expireKey, expireJsonVal edt)], rest) :=
  parseMembers_last (f + 1) expireKey (expireChars edt) rest (expireJsonVal edt)
    (expireValue_parse f edt rest)

theorem metaMembers3 (f : Nat) (m : PasteMeta) (rest : List Char) :
    parseMembers (f + 3) (encodeJsonString creationKey ++ ':' :: ' ' ::
      (encodeJsonString m.creation_dt.isoformat ++ ',' :: ' ' ::
        (encodeJsonString expireKey ++ ':' :: ' ' :: (expireChars m.expire_dt ++ '}' :: rest)))) =
      some ([(creationKey, Json.str m.creation_dt.isoformat),
             (expireKey, expireJsonVal m.expire_dt)], rest) := by
  refine parseMembers_more (f + 2) creationKey _ _ rest (Json.str m.creation_dt.isoformat) _
    (parseValue_str (f + 1) m.creation_dt.isoformat _) ?_
  rw [parseMembers_space]
  exact metaMembers4 f m.expire_dt rest

theorem metaMembers2 (f : Nat) (m : PasteMeta) (rest : List Char) :
    parseMembers (f + 4) (encodeJsonString pasteIdKey ++ ':' :: ' ' ::
      (encodeJsonString m.paste_id ++ ',' :: ' ' ::
        (encodeJsonString creationKey ++ ':' :: ' ' ::
          (encodeJsonString m.creation_dt.isoformat ++ ',' :: ' ' ::
            (encodeJsonString expireKey ++ ':' :: ' ' ::
              (expireChars m.expire_dt ++ '}' :: rest)))))) =
      some ([(pasteIdKey, Json.str m.paste_id),
             (creationKey, Json.str m.creation_dt.isoformat),
             (expireKey, expireJsonVal m.expire_dt)], rest) := by
  refine parseMembers_more (f + 3) pasteIdKey _ _ rest (Json.str m.paste_id) _
    (parseValue_str (f + 2) m.paste_id _) ?_
  rw [parseMembers_space]
  exact metaMembers3 f m rest

theorem metaMembers1 (f : Nat) (m : PasteMeta) (rest : List Char) :
    parseMembers (f + 5) (encodeJsonString versionKey ++ ':' :: ' ' ::
      (intToChars m.version ++ ',' :: ' ' ::
        (encodeJsonString pasteIdKey ++ ':' :: ' ' ::
          (encodeJsonString m.paste_id ++ ',' :: ' ' ::
            (encodeJsonString creationKey ++ ':' :: ' ' ::
              (encodeJsonString m.creation_dt.isoformat ++ ',' :: ' ' ::
                (encodeJsonString expireKey ++ ':' :: ' ' ::
                  (expireChars m.expire_dt ++ '}' :: rest)))))))) =
      some (metaJson m, rest) := by
  have hms : parseMembers (f + 4) (' ' :: (encodeJsonString pasteIdKey ++ ':' :: ' ' ::
      (encodeJsonString m.paste_id ++ ',' :: ' ' ::
        (encodeJsonString creationKey ++ ':' :: ' ' ::
          (encodeJsonString m.creation_dt.isoformat ++ ',' :: ' ' ::
            (encodeJsonString expireKey ++ ':' :: ' ' ::
              (expireChars m.expire_dt ++ '}' :: rest))))))) =
      some ([(pasteIdKey, Json.str m.paste_id),
             (creationKey, Json.str m.creation_dt.isoformat),
             (expireKey, expireJsonVal m.expire_dt)], rest) := by
    rw [parseMembers_space]
    exact metaMembers2 f m rest
  have hv : parseValue (f + 4) (intToChars m.version ++ ',' :: ' ' ::
      (encodeJsonString pasteIdKey ++ ':' :: ' ' ::
        (encodeJsonString m.paste_id ++ ',' :: ' ' ::
          (encodeJsonString creationKey ++ ':' :: ' ' ::
            (encodeJsonString m.creation_dt.isoformat ++ ',' :: ' ' ::
              (encodeJsonString expireKey ++ ':' :: ' ' ::
                (expireChars m.expire_dt ++ '}' :: rest))))))) =
      some (Json.num m.version, ',' :: ' ' ::
        (encodeJsonString pasteIdKey ++ ':' :: ' ' ::
          (encodeJsonString m.paste_id ++ ',' :: ' ' ::
            (encodeJsonString creationKey ++ ':' :: ' ' ::
              (encodeJsonString m.creation_dt.isoformat ++ ',' :: ' ' ::
                (encodeJsonString expireKey ++ ':' :: ' ' ::
                  (expireChars m.expire_dt ++ '}' :: rest))))))) :=
    parseValue_num (f + 3) m.version _ (by rfl)
  exact parseMembers_more (f + 4) versionKey _ _ rest (Json.num m.version) _ hv hms

theorem skipWs_encode (k X : List Char) :
    skipWs (encodeJsonString k ++ X) = encodeJsonString k ++ X :=
  skipWs_cons '"' _ (by decide)

theorem encode_fold (k X : List Char) :
    '"' :: ((k.flatMap escapeChar).append ['"']).append X = encodeJsonString k ++ X := by
  simp [encodeJsonString]

theorem parseValue_dumpsMeta (f : Nat) (m : PasteMeta) (rest : List Char) :
    parseValue (f + 6) (dumpsMeta m ++ rest) = some (Json.obj (metaJson m), rest) := by
  have hshape : dumpsMeta m ++ rest = '{' :: (encodeJsonString versionKey ++ ':' :: ' ' ::
      (intToChars m.version ++ ',' :: ' ' ::
        (encodeJsonString pasteIdKey ++ ':' :: ' ' ::
          (encodeJsonString m.paste_id ++ ',' :: ' ' ::
            (encodeJsonString creationKey ++ ':' :: ' ' ::
              (encodeJsonString m.creation_dt.isoformat ++ ',' :: ' ' ::
                (encodeJsonString expireKey ++ ':' :: ' ' ::
                  (expireChars m.expire_dt ++ '}' :: rest)))))))) := by
    simp [dumpsMeta, List.append_assoc]
  rw [hshape]
  show parseValue ((f + 5) + 1) _ = _
  simp only [parseValue]
  rw [skipWs_cons _ _ (by decide)]
  simp only []
  rw [if_neg (by decide : ¬('{' : Char) = '"'), if_pos (trivial : True), skipWs_encode]
  show (parseMembers (f + 5) _).map (fun p => (Json.obj p.1, p.2)) = _
  rw [encode_fold, metaMembers1 f m rest]
  rfl

theorem jsonLoads_dumpsMeta (m : PasteMeta) (trail : List Char) (htrail : skipWs trail = []) :
    jsonLoads (dumpsMeta m ++ trail) = some (Json.obj (metaJson m)) := by
  have hlen : 5 ≤ (dumpsMeta m ++ trail).length := by
    simp [dumpsMeta, encodeJsonString]
    omega
  obtain ⟨f, hf⟩ : ∃ f, (dumpsMeta m ++ trail).length + 1 = f + 6 :=
    ⟨(dumpsMeta m ++ trail).length - 5, by omega⟩
  unfold jsonLoads
  rw [hf, parseValue_dumpsMeta f m trail]
  simp [htrail]

theorem findField_version (m : PasteMeta) :
    findField (metaJson m) versionKey = some (Json.num m.version) := rfl

theorem findField_pasteId (m : PasteMeta) :
    findField (metaJson m) pasteIdKey = some (Json.str m.paste_id) := rfl

theorem findField_creation (m : PasteMeta) :
    findField (metaJson m) creationKey = some (Json.str m.creation_dt.isoformat) := rfl

theorem findField_expire (m : PasteMeta) :
    findField (metaJson m) expireKey = some (expireJsonVal m.expire_dt) := rfl

theorem pasteMetaVersionParseRaw_dumps (m : PasteMeta) (trail : List Char)
    (htrail : skipWs trail = []) :
    pasteMetaVersionParseRaw (dumpsMeta m ++ trail) = Except.ok m.version := by
  unfold pasteMetaVersionParseRaw
  rw [jsonLoads_dumpsMeta m trail htrail]
  simp only []
  rw [findField_version]
  rfl

theorem pasteMetaParseRaw_dumps (m : PasteMeta) (hcd : m.creation_dt.Valid)
    (hed : ∀ d ∈ m.expire_dt, d.Valid) (trail : List Char) (htrail : skipWs trail = []) :
    pasteMetaParseRaw (dumpsMeta m ++ trail) = Except.ok m := by
  unfold pasteMetaParseRaw
  rw [jsonLoads_dumpsMeta m trail htrail]
  simp only []
  rw [findField_version, findField_pasteId, findField_creation, findField_expire]
  simp only [validateInt, validateStr, validateDatetime,
    parseDatetime_isoformat m.creation_dt hcd]
  rcases hedt : m.expire_dt with _ | d
  · simp [Except.bind, expireJsonVal, validateOptDatetime]
    rw [← hedt]
  · have hd : d.Valid := hed d (by rw [hedt]; exact rfl)
    simp [Except.bind, Except.map, expireJsonVal, validateOptDatetime, validateDatetime,
      parseDatetime_isoformat d hd]
    rw [← hedt]

/-- Validity of a `PasteMeta` value: the version is the engine's current
constant (the invariant the store writes and the only version it reads)
and the datetime fields are constructible `datetime` values. -/
def PasteMeta.Valid (m : PasteMeta) : Prop :=
  m.version = CURRENT_PASTE_META_VERSION ∧ m.creation_dt.Valid ∧ ∀ d ∈ m.expire_dt, d.Valid

theorem get_paste_meta_dumps (m : PasteMeta) (hm : m.Valid) (trail : List Char)
    (htrail : skipWs trail = []) :
    get_paste_meta (dumpsMeta m ++ trail) = Except.ok m := by
  obtain ⟨hv, hcd, hed⟩ := hm
  unfold get_paste_meta
  rw [pasteMetaVersionParseRaw_dumps m trail htrail]
  simp only []
  rw [hv, if_neg (show ¬CURRENT_PASTE_META_VERSION ≠ CURRENT_PASTE_META_VERSION from by simp)]
  rw [pasteMetaParseRaw_dumps m hcd hed trail htrail]

theorem newline_not_mem_encodeJsonString (s : List Char) : '\n' ∉ encodeJsonString s := by
  intro hmem
  rcases List.mem_cons.1 hmem with h | h
  · exact absurd h (by decide)
  rcases List.mem_append.1 h with h | h
  · exact newline_not_mem_flatMap_escape s h
  · exact absurd (List.mem_singleton.1 h) (by decide)

theorem newline_not_mem_expireChars (edt : Option Datetime) : '\n' ∉ expireChars edt := by
  cases edt with
  | none => decide
  | some d => exact newline_not_mem_encodeJsonString d.isoformat

theorem newline_seg (A X : List Char) (c1 c2 : Char) (h1 : c1 ≠ '\n') (h2 : c2 ≠ '\n')
    (hA : '\n' ∉ A) (hX : '\n' ∉ X) : '\n' ∉ A ++ c1 :: c2 :: X := by
  intro hm
  rcases List.mem_append.1 hm with h | h
  · exact hA h
  rcases List.mem_cons.1 h with h | h
  · exact h1 h.symm
  rcases List.mem_cons.1 h with h | h
  · exact h2 h.symm
  · exact hX h

theorem newline_close (E : List Char) (hE : '\n' ∉ E) : '\n' ∉ E ++ ['}'] := by
  intro hm
  rcases List.mem_append.1 hm with h | h
  · exact hE h
  · exact absurd (List.mem_singleton.1 h) (by decide)

theorem newline_not_mem_dumpsMeta (m : PasteMeta) : '\n' ∉ dumpsMeta m := by
  intro hm
  rcases List.mem_cons.1 hm with h | h
  · exact absurd h (by decide)
  · exact newline_seg _ _ _ _ (by decide) (by decide) (newline_not_mem_encodeJsonString _)
      (newline_seg _ _ _ _ (by decide) (by decide) (newline_not_mem_intToChars _)
        (newline_seg _ _ _ _ (by decide) (by decide) (newline_not_mem_encodeJsonString _)
          (newline_seg _ _ _ _ (by decide) (by decide) (newline_not_mem_encodeJsonString _)
            (newline_seg _ _ _ _ (by decide) (by decide) (newline_not_mem_encodeJsonString _)
              (newline_seg _ _ _ _ (by decide) (by decide)
                (newline_not_mem_encodeJsonString _)
                (newline_seg _ _ _ _ (by decide) (by decide)
                  (newline_not_mem_encodeJsonString _)
                  (newline_close _ (newline_not_mem_expireChars _)))))))) h

/-! ### The stored file: `write_paste`, `read_paste_meta`, `read_paste_content` -/

/-- Split off the first line of a binary-mode file, Python style: up to
and including the first newline, or the whole remainder if none. -/
def breakLine : List Char → List Char × List Char
  | [] => ([], [])
  | c :: r =>
    if c = '\n' then ([c], r)
    else (c :: (breakLine r).1, (breakLine r).2)

/-- `fo.readline()` at the start of a file. -/
def pyReadline (cs : List Char) : List Char := (breakLine cs).1

theorem breakLine_append (cs : List Char) :
    (breakLine cs).1 ++ (breakLine cs).2 = cs := by
  induction cs with
  | nil => rfl
  | cons c r ih =>
    simp only [breakLine]
    split_ifs with h
    · simp [h]
    · simpa using ih

theorem breakLine_fst_ne_nil (c : Char) (r : List Char) : (breakLine (c :: r)).1 ≠ [] := by
  simp only [breakLine]
  split_ifs <;> simp

theorem breakLine_snd_lt (cs : List Char) (h : cs ≠ []) :
    (breakLine cs).2.length < cs.length := by
  cases cs with
  | nil => exact absurd rfl h
  | cons c r =>
    have hjoin := breakLine_append (c :: r)
    have hlen : (breakLine (c :: r)).1.length + (breakLine (c :: r)).2.length =
        (c :: r).length := by
      rw [← List.length_append, hjoin]
    have hne := breakLine_fst_ne_nil c r
    have h1 : 1 ≤ (breakLine (c :: r)).1.length := by
      cases hx : (breakLine (c :: r)).1 with
      | nil => exact absurd hx hne
      | cons a b => simp
    simp at hlen ⊢
    omega

/-- Iterating a Python binary file yields its lines, each including its
terminating newline except possibly the last (`async for line in fo`). -/
def splitLines (cs : List Char) : List (List Char) :=
  if h : cs = [] then [] else (breakLine cs).1 :: splitLines (breakLine cs).2
  termination_by cs.length
  decreasing_by exact breakLine_snd_lt cs h

theorem splitLines_flatten : ∀ cs : List Char, (splitLines cs).flatten = cs
  | cs => by
    by_cases h : cs = []
    · subst h
      rw [splitLines, dif_pos rfl]
      rfl
    · rw [splitLines, dif_neg h, List.flatten_cons,
        splitLines_flatten (breakLine cs).2, breakLine_append]
  termination_by cs => cs.length
  decreasing_by exact breakLine_snd_lt cs h

/-- `helpers.write_paste` with pre-materialized `bytes` content: the
encoded metadata line, the added newline, then the raw content. -/
def write_paste (paste_meta : PasteMeta) (content : List Char) : List Char :=
  dumpsMeta paste_meta ++ '\n' :: content

/-- `helpers.write_paste` with an `AsyncGenerator` content argument: the
chunks are forwarded to the file in order after the metadata line. -/
def write_paste_stream (paste_meta : PasteMeta) (chunks : List (List Char)) : List Char :=
  dumpsMeta paste_meta ++ '\n' :: chunks.flatten

/-- `helpers.read_paste_meta`: read the first line, decode it. -/
def read_paste_meta (file : List Char) : Except MetaError PasteMeta :=
  get_paste_meta (pyReadline file)

/-- `helpers.read_paste_content`: discard the first line, then yield the
remaining lines as chunks. -/
def read_paste_content (file : List Char) : List (List Char) :=
  splitLines (breakLine file).2

theorem breakLine_no_newline (l : List Char) (r : List Char) (h : '\n' ∉ l) :
    breakLine (l ++ '\n' :: r) = (l ++ ['\n'], r) := by
  induction l with
  | nil => simp [breakLine]
  | cons c t ih =>
    have hc : ¬c = '\n' := fun hEq => h (by simp [hEq])
    have hih := ih (fun hm => h (by simp [hm]))
    simp only [List.cons_append, breakLine, hc, if_false]
    show (c :: (breakLine (t ++ '\n' :: r)).1, (breakLine (t ++ '\n' :: r)).2) = _
    rw [hih]

/-! ### Path resolution and identifier generation -/

/-- A filesystem path as a list of components; `root / a / b` is
`root ++ [a, b]`. -/
abbrev FsPath := List (List Char)

/-- The `PasteException` / `PasteMetaException` kinds raised by the store
operations. -/
inductive PasteErr where
  | idTooShort
  | doesNotExist
  | expired
  | metaErr (e : MetaError)
  | typeErr
deriving DecidableEq

/-- `helpers.create_paste_path`: reject ids shorter than 3 characters,
else `root_path / paste_id[:2] / paste_id[2:]`.  The `mkdir` flag only
creates the shard directory as a side effect and does not change the
returned path. -/
def create_paste_path (root_path : FsPath) (paste_id : List Char) : Except PasteErr FsPath :=
  if paste_id.length < 3 then Except.error PasteErr.idTooShort
  else Except.ok (root_path ++ [paste_id.take 2, paste_id.drop 2])

/-- The base64url alphabet used by `secrets.token_urlsafe`. -/
def base64UrlChar (n : Nat) : Char :=
  if n < 26 then Char.ofNat (65 + n)
  else if n < 52 then Char.ofNat (97 + (n - 26))
  else if n < 62 then Char.ofNat (48 + (n - 52))
  else if n = 62 then '-'
  else '_'

def base64Alphabet : List Char :=
  "ABCDEFGHIJKLMNOPQRSTUVWXYZabcdefghijklmnopqrstuvwxyz0123456789-_".data

/-- Unpadded base64url encoding of a byte sequence (the `=` padding is
stripped, as `token_urlsafe` does). -/
def base64UrlNoPad : List Nat → List Char
  | [] => []
  | [b1] => [base64UrlChar (b1 / 4), base64UrlChar (b1 % 4 * 16)]
  | [b1, b2] => [base64UrlChar (b1 / 4), base64UrlChar (b1 % 4 * 16 + b2 / 16),
      base64UrlChar (b2 % 16 * 4)]
  | b1 :: b2 :: b3 :: rest =>
      base64UrlChar (b1 / 4) :: base64UrlChar (b1 % 4 * 16 + b2 / 16) ::
      base64UrlChar (b2 % 16 * 4 + b3 / 64) :: base64UrlChar (b3 % 64) ::
      base64UrlNoPad rest

/-- `secrets.token_urlsafe(nbytes)`: base64url of `nbytes` random bytes,
drawn here from an explicit entropy list. -/
def token_urlsafe (nbytes : Nat) (entropy : List Nat) : List Char :=
  base64UrlNoPad (entropy.take nbytes)

/-- `helpers.create_paste_id`: `token_urlsafe(30)` for a long id,
`token_urlsafe(7)` for a short one. -/
def create_paste_id (long : Bool) (entropy : List Nat) : List Char :=
  if long then token_urlsafe 30 entropy else token_urlsafe 7 entropy

/-! ### Expiry -/

/-- Civil-calendar day number; strictly monotone in the date for valid
dates (Gregorian, proleptic). -/
def daysFromCivil (y m d : Nat) : Nat :=
  let yAdj := y - (if m ≤ 2 then 1 else 0)
  let era := yAdj / 400
  let yoe := yAdj % 400
  let mp := if 2 < m then m - 3 else m + 9
  let doy := (153 * mp + 2) / 5 + (d - 1)
  let doe := yoe * 365 + yoe / 4 - yoe / 100 + doy
  era * 146097 + doe

/-- Microseconds of the naive (wall-clock) fields since the epoch of
`daysFromCivil`. -/
def Datetime.naiveMicros (dt : Datetime) : Nat :=
  (((daysFromCivil dt.year dt.month dt.day * 24 + dt.hour) * 60 + dt.minute) * 60
    + dt.second) * 1000000 + dt.microsecond

/-- `datetime.replace(tzinfo=None)`. -/
def Datetime.stripTz (dt : Datetime) : Datetime := { dt with tzOffset := none }

/-- Python `<` on datetimes: two naive values compare by wall clock, two
aware values by absolute instant, and mixing naive and aware raises
`TypeError` (modelled as `Except.error`). -/
def pyLtDatetime (a b : Datetime) : Except Unit Bool :=
  match a.tzOffset, b.tzOffset with
  | none, none => Except.ok (decide (a.naiveMicros < b.naiveMicros))
  | some oa, some ob =>
    Except.ok (decide ((a.naiveMicros : Int) - oa * 60000000 <
      (b.naiveMicros : Int) - ob * 60000000))
  | _, _ => Except.error ()

/-- `helpers.PasteMeta.is_expired` evaluated against `datetime.utcnow()`
supplied as `now` (a naive value): `expire_dt is not None and
expire_dt < now`; the bare comparison can raise `TypeError`. -/
def helpersIsExpired (m : PasteMeta) (now : Datetime) : Except Unit Bool :=
  match m.expire_dt with
  | none => Except.ok false
  | some d => pyLtDatetime d now

/-- `core.models.PasteMeta.is_expired`: the same check, but the stored
expiry is first stripped of its timezone with `replace(tzinfo=None)`. -/
def modelsIsExpired (m : ModelsPasteMeta) (now : Datetime) : Except Unit Bool :=
  match m.expire_dt with
  | none => Except.ok false
  | some d => pyLtDatetime d.stripTz now

/-! ### The filesystem and `try_get_paste` -/

/-- The backing filesystem: an association of paths to file contents. -/
abbrev Fs := List (FsPath × List Char)

def fsLookup (fs : Fs) (p : FsPath) : Option (List Char) :=
  (fs.find? (fun e => e.1 == p)).map (fun e => e.2)

def fsErase (fs : Fs) (p : FsPath) : Fs := fs.filter (fun e => !(e.1 == p))

/-- `aiofiles.os.remove`: delete the file or raise `FileNotFoundError`. -/
def os_remove (fs : Fs) (p : FsPath) : Except Unit Fs :=
  if (fsLookup fs p).isSome then Except.ok (fsErase fs p) else Except.error ()

/-- `helpers.try_get_paste`.  The filesystem is threaded explicitly and
returned alongside the outcome.  `now` stands for `datetime.utcnow()`;
`raceVanished` models a concurrent deletion of the file between the
metadata read and the `remove` call — exactly the race whose
`FileNotFoundError` the code catches and ignores. -/
def try_get_paste (fs : Fs) (root_path : FsPath) (paste_id : List Char)
    (auto_remove : Bool) (now : Datetime) (raceVanished : Bool) :
    Except PasteErr (FsPath × PasteMeta) × Fs :=
  match create_paste_path root_path paste_id with
  | Except.error e => (Except.error e, fs)
  | Except.ok paste_path =>
    match fsLookup fs paste_path with
    | none => (Except.error PasteErr.doesNotExist, fs)
    | some file =>
      match read_paste_meta file with
      | Except.error e => (Except.error (PasteErr.metaErr e), fs)
      | Except.ok paste_meta =>
        match helpersIsExpired paste_meta now with
        | Except.error _ => (Except.error PasteErr.typeErr, fs)
        | Except.ok true =>
          if auto_remove then
            let fs1 := if raceVanished then fsErase fs paste_path else fs
            let fs2 := match os_remove fs1 paste_path with
              | Except.ok fsNew => fsNew
              | Except.error _ => fs1
            (Except.error PasteErr.expired, fs2)
          else (Except.error PasteErr.expired, fs)
        | Except.ok false => (Except.ok (paste_path, paste_meta), fs)

/-- `core.models.PasteApiCreate.validate_title`: rejects only titles
longer than 32 characters, with the message `title must be < 32`. -/
def validate_title (title : Option (List Char)) : Except (List Char) (Option (List Char)) :=
  match title with
  | none => Except.ok none
  | some t =>
    if 32 < t.length then Except.error "title must be < 32".data
    else Except.ok (some t)

theorem fsLookup_erase (fs : Fs) (p : FsPath) : fsLookup (fsErase fs p) p = none := by
  induction fs with
  | nil => rfl
  | cons e t ih =>
    simp only [fsErase, List.filter_cons] at ih ⊢
    cases hbe : (e.1 == p) with
    | false =>
      simp only [hbe, Bool.not_false, if_true]
      simp only [fsLookup, List.find?_cons, hbe]
      exact ih
    | true =>
      simp only [hbe, Bool.not_true, Bool.false_eq_true, if_false]
      exact ih

theorem length_base64UrlNoPad (bs : List Nat) :
    (base64UrlNoPad bs).length = (4 * bs.length + 2) / 3 := by
  induction bs using base64UrlNoPad.induct with
  | case1 => rfl
  | case2 b1 => simp [base64UrlNoPad]
  | case3 b1 b2 => simp [base64UrlNoPad]
  | case4 b1 b2 b3 rest ih =>
    simp only [base64UrlNoPad, List.length_cons, ih]
    omega

theorem base64UrlChar_mem : ∀ n : Nat, n < 64 → base64UrlChar n ∈ base64Alphabet := by decide

theorem base64UrlNoPad_mem (bs : List Nat) (hb : ∀ b ∈ bs, b < 256) :
    ∀ c ∈ base64UrlNoPad bs, c ∈ base64Alphabet := by
  induction bs using base64UrlNoPad.induct with
  | case1 =>
    intro c hc
    simp [base64UrlNoPad] at hc
  | case2 b1 =>
    intro c hc
    have h1 := hb b1 (by simp)
    simp only [base64UrlNoPad, List.mem_cons, List.not_mem_nil, or_false] at hc
    rcases hc with h | h <;> (subst h; exact base64UrlChar_mem _ (by omega))
  | case3 b1 b2 =>
    intro c hc
    have h1 := hb b1 (by simp)
    have h2 := hb b2 (by simp)
    simp only [base64UrlNoPad, List.mem_cons, List.not_mem_nil, or_false] at hc
    rcases hc with h | h | h <;> (subst h; exact base64UrlChar_mem _ (by omega))
  | case4 b1 b2 b3 rest ih =>
    intro c hc
    have h1 := hb b1 (by simp)
    have h2 := hb b2 (by simp)
    have h3 := hb b3 (by simp)
    simp only [base64UrlNoPad, List.mem_cons] at hc
    rcases hc with h | h | h | h | h
    · subst h; exact base64UrlChar_mem _ (by omega)
    · subst h; exact base64UrlChar_mem _ (by omega)
    · subst h; exact base64UrlChar_mem _ (by omega)
    · subst h; exact base64UrlChar_mem _ (by omega)
    · exact ih (fun b hbm => hb b (by simp [hbm])) c h

instance (dt : Datetime) : Decidable dt.Valid := by
  unfold Datetime.Valid
  infer_instance

instance optionBAllDec (p : Datetime → Prop) [DecidablePred p] (o : Option Datetime) :
    Decidable (∀ d ∈ o, p d) :=
  match o with
  | none => isTrue (by simp)
  | some d => decidable_of_iff (p d) (by simp)

instance (m : PasteMeta) : Decidable m.Valid := by
  unfold PasteMeta.Valid
  infer_instance

/-! ### The claims -/

/-- C1: Storage round-trip.  For every `PasteMeta` `m` (valid: version is
the current constant and the datetime fields are constructible) and every
content sequence `c`, `write_paste` stores the encoded metadata line
followed by `c`; the first line of the file is exactly the single
newline-terminated serialized `PasteMeta`; `read_paste_meta` on that file
returns `m`; the concatenation of the chunks yielded by
`read_paste_content` is exactly `c`; and the `AsyncGenerator` variant of
`write_paste` writes the concatenation of its chunks. -/
theorem storage_roundtrip (m : PasteMeta) (hm : m.Valid) (c : List Char) :
    pyReadline (write_paste m c) = dumpsMeta m ++ ['\n'] ∧
    read_paste_meta (write_paste m c) = Except.ok m ∧
    (read_paste_content (write_paste m c)).flatten = c ∧
    (∀ chunks : List (List Char), write_paste_stream m chunks = write_paste m chunks.flatten) := by
  have hbl : breakLine (write_paste m c) = (dumpsMeta m ++ ['\n'], c) :=
    breakLine_no_newline (dumpsMeta m) c (newline_not_mem_dumpsMeta m)
  refine ⟨?_, ?_, ?_, fun chunks => rfl⟩
  · simp [pyReadline, hbl]
  · unfold read_paste_meta pyReadline
    rw [hbl]
    simp only []
    have hshape : dumpsMeta m ++ ['\n'] = dumpsMeta m ++ ['\n'] := rfl
    exact get_paste_meta_dumps m hm ['\n'] rfl
  · unfold read_paste_content
    rw [hbl]
    exact splitLines_flatten c

def witnessMeta : PasteMeta :=
  ⟨1, "abc".data, ⟨2024, 5, 7, 1, 2, 3, 0, none⟩, none⟩

theorem storage_roundtrip_witness :
    witnessMeta.Valid ∧
    read_paste_meta (write_paste witnessMeta "hello".data) = Except.ok witnessMeta ∧
    (read_paste_content (write_paste witnessMeta "hello".data)).flatten = "hello".data :=
  ⟨by decide, (storage_roundtrip witnessMeta (by decide) "hello".data).2.1,
    (storage_roundtrip witnessMeta (by decide) "hello".data).2.2.1⟩

/-- C2: Path resolution.  For every `paste_id` shorter than 3 characters
`create_paste_path` fails with the `PasteIdException` (`idTooShort`); for
every `paste_id` of length at least 3 it succeeds with exactly
`root_path / paste_id[0:2] / paste_id[2:]` — a pure, deterministic
function of its arguments. -/
theorem path_resolution (root_path : FsPath) (paste_id : List Char) :
    (paste_id.length < 3 →
      create_paste_path root_path paste_id = Except.error PasteErr.idTooShort) ∧
    (3 ≤ paste_id.length →
      create_paste_path root_path paste_id =
        Except.ok (root_path ++ [paste_id.take 2, paste_id.drop 2])) := by
  constructor
  · intro h
    unfold create_paste_path
    rw [if_pos h]
  · intro h
    unfold create_paste_path
    rw [if_neg (by omega)]

theorem path_resolution_witness :
    create_paste_path [] "ab".data = Except.error PasteErr.idTooShort ∧
    create_paste_path [] "abcd".data = Except.ok ["ab".data, "cd".data] :=
  ⟨(path_resolution [] "ab".data).1 (by decide),
    by
      have h := (path_resolution [] "abcd".data).2 (by decide)
      simpa using h⟩

/-- C5: Metadata codec round-trip.  For every valid `PasteMeta` value `m`
(version equal to the current constant, constructible datetimes),
decoding the single-line encoding of `m` yields `m` back
(`get_paste_meta (dumpsMeta m) = ok m`), and the encoding contains no
newline character. -/
theorem meta_codec_roundtrip (m : PasteMeta) (hm : m.Valid) :
    get_paste_meta (dumpsMeta m) = Except.ok m ∧ '\n' ∉ dumpsMeta m := by
  constructor
  · have h := get_paste_meta_dumps m hm [] rfl
    simpa using h
  · exact newline_not_mem_dumpsMeta m

def witnessMeta2 : PasteMeta :=
  ⟨1, "Zy9_x".data, ⟨2023, 12, 31, 23, 59, 59, 123456, none⟩,
    some ⟨2024, 2, 29, 6, 30, 0, 0, some 330⟩⟩

theorem meta_codec_roundtrip_witness :
    witnessMeta2.Valid ∧
    get_paste_meta (dumpsMeta witnessMeta2) = Except.ok witnessMeta2 ∧
    '\n' ∉ dumpsMeta witnessMeta2 :=
  ⟨by decide, (meta_codec_roundtrip witnessMeta2 (by decide)).1,
    (meta_codec_roundtrip witnessMeta2 (by decide)).2⟩

/-- C7: A `PasteMeta` with no `expire_dt` is never expired: both the
`helpers` and the `core.models` implementations of `is_expired` return
`False` (and in particular do not raise), whatever the current time. -/
theorem no_expiry_never_expired :
    (∀ (m : PasteMeta) (now : Datetime), m.expire_dt = none →
      helpersIsExpired m now = Except.ok false) ∧
    (∀ (m : ModelsPasteMeta) (now : Datetime), m.expire_dt = none →
      modelsIsExpired m now = Except.ok false) := by
  constructor
  · intro m now h
    unfold helpersIsExpired
    rw [h]
  · intro m now h
    unfold modelsIsExpired
    rw [h]

theorem no_expiry_never_expired_witness :
    helpersIsExpired witnessMeta ⟨9999, 12, 31, 23, 59, 59, 999999, none⟩ =
      Except.ok false ∧
    modelsIsExpired ⟨1, [], ⟨2024, 1, 1, 0, 0, 0, 0, none⟩, none, none, none⟩
      ⟨9999, 12, 31, 23, 59, 59, 999999, none⟩ = Except.ok false :=
  ⟨no_expiry_never_expired.1 witnessMeta _ rfl,
    no_expiry_never_expired.2 ⟨1, [], ⟨2024, 1, 1, 0, 0, 0, 0, none⟩, none, none, none⟩ _ rfl⟩

/-- C3: Two-phase decode, phase 1.  For every metadata line whose
`version` field parses to a value different from the supported version
(1), both `get_paste_meta` and `extract_from_line` fail with
`PasteMetaVersionInvalid` carrying the offending version — whatever the
full-schema parse of the line would do, since the check runs before it —
and the error is the `versionInvalid` kind, not `unprocessable`. -/
theorem version_invalid_two_phase (line : List Char) (v : Int)
    (hparse : pasteMetaVersionParseRaw line = Except.ok v)
    (hv : v ≠ CURRENT_PASTE_META_VERSION) :
    get_paste_meta line = Except.error (MetaError.versionInvalid v (versionInvalidMsg v)) ∧
    extract_from_line line = Except.error (MetaError.versionInvalid v (versionInvalidMsg v)) ∧
    intToChars v <:+: versionInvalidMsg v := by
  refine ⟨?_, ?_, ?_⟩
  · unfold get_paste_meta
    rw [hparse]
    simp only []
    rw [if_pos hv]
  · unfold extract_from_line
    rw [hparse]
    simp only []
    rw [if_pos hv]
  · exact ⟨"paste is not a valid version number of '".data, "'".data, rfl⟩

def versionNinetyNineLine : List Char := '{' :: "\"version\": 99".data ++ ['}']

theorem version_invalid_two_phase_witness :
    pasteMetaVersionParseRaw versionNinetyNineLine = Except.ok 99 ∧
    get_paste_meta versionNinetyNineLine =
      Except.error (MetaError.versionInvalid 99 (versionInvalidMsg 99)) :=
  ⟨by rfl, (version_invalid_two_phase versionNinetyNineLine 99 (by rfl) (by decide)).1⟩

/-- C4 (counterexample): the claim says the `Unprocessable` error always
carries the original offending line; `get_paste_meta` on the
JSON-invalid line `XYZ` raises `PasteMetaUnprocessable` whose message is
the constant `paste meta cannot be loaded`, which does not contain the
line. -/
theorem unprocessable_no_line_carried :
    get_paste_meta "XYZ".data = Except.error (MetaError.unprocessable cannotLoadMsg) ∧
    ¬("XYZ".data <:+: cannotLoadMsg) := by
  constructor
  · rfl
  · decide

/-- C4 (amended): for every metadata line that fails structural or type
validation — invalid JSON in phase 1, or a version-1 line whose full
parse fails in phase 2 — decode fails with `PasteMetaUnprocessable`;
`extract_from_line` carries the original offending line in its message,
while `get_paste_meta` uses a constant message that does not. -/
theorem unprocessable_two_phase :
    (∀ line : List Char, pasteMetaVersionParseRaw line = Except.error () →
      get_paste_meta line = Except.error (MetaError.unprocessable cannotLoadMsg) ∧
      extract_from_line line = Except.error (MetaError.unprocessable (extractMsg line))) ∧
    (∀ line : List Char,
      pasteMetaVersionParseRaw line = Except.ok CURRENT_PASTE_META_VERSION →
      pasteMetaParseRaw line = Except.error () →
      get_paste_meta line = Except.error (MetaError.unprocessable cannotLoadMsg)) ∧
    (∀ line : List Char,
      pasteMetaVersionParseRaw line = Except.ok CURRENT_PASTE_META_VERSION →
      modelsParseRaw line = Except.error () →
      extract_from_line line = Except.error (MetaError.unprocessable (extractMsg line))) ∧
    (∀ line : List Char, line <:+: extractMsg line) := by
  refine ⟨?_, ?_, ?_, ?_⟩
  · intro line h
    constructor
    · unfold get_paste_meta
      rw [h]
    · unfold extract_from_line
      rw [h]
  · intro line h1 h2
    unfold get_paste_meta
    rw [h1]
    simp only []
    rw [if_neg (by simp), h2]
  · intro line h1 h2
    unfold extract_from_line
    rw [h1]
    simp only []
    rw [if_neg (by simp), h2]
  · intro line
    exact ⟨"paste meta validation did not pass: '".data, "'".data, rfl⟩

theorem unprocessable_two_phase_witness :
    pasteMetaVersionParseRaw "XYZ".data = Except.error () ∧
    extract_from_line "XYZ".data =
      Except.error (MetaError.unprocessable (extractMsg "XYZ".data)) ∧
    "XYZ".data <:+: extractMsg "XYZ".data :=
  ⟨by rfl, (unprocessable_two_phase.1 "XYZ".data (by rfl)).2,
    unprocessable_two_phase.2.2.2 "XYZ".data⟩

/-- C8 (counterexample): the claim says `is_expired` never fails even for
a timezone-aware `expire_dt`; the `helpers` implementation compares the
aware expiry against naive `utcnow()` without stripping the timezone, so
it raises `TypeError`. -/
theorem aware_expiry_raises :
    helpersIsExpired
      ⟨1, [], ⟨2020, 1, 1, 0, 0, 0, 0, none⟩, some ⟨2020, 1, 1, 0, 0, 0, 0, some 60⟩⟩
      ⟨2024, 1, 1, 0, 0, 0, 0, none⟩ = Except.error () := rfl

/-- C8 (amended): with a present `expire_dt`, `core.models.is_expired` is
computed totally — it strips any timezone with `replace(tzinfo=None)` and
is true exactly when the stripped expiry is earlier than the naive
current UTC time — while `helpers.is_expired` compares without stripping:
it agrees on naive expiries but raises `TypeError` on aware ones. -/
theorem expiry_comparison_amended :
    (∀ (m : ModelsPasteMeta) (now : Datetime) (d : Datetime), now.tzOffset = none →
      m.expire_dt = some d →
      modelsIsExpired m now = Except.ok (decide (d.naiveMicros < now.naiveMicros))) ∧
    (∀ (m : PasteMeta) (now : Datetime) (d : Datetime), now.tzOffset = none →
      m.expire_dt = some d → d.tzOffset = none →
      helpersIsExpired m now = Except.ok (decide (d.naiveMicros < now.naiveMicros))) := by
  constructor
  · intro m now d hnow hedt
    unfold modelsIsExpired
    rw [hedt]
    simp only []
    unfold pyLtDatetime
    rw [show d.stripTz.tzOffset = none from rfl, hnow]
    rfl
  · intro m now d hnow hedt hd
    unfold helpersIsExpired
    rw [hedt]
    simp only []
    unfold pyLtDatetime
    rw [hd, hnow]

theorem expiry_comparison_amended_witness :
    modelsIsExpired
      ⟨1, [], ⟨2020, 1, 1, 0, 0, 0, 0, none⟩, some ⟨2020, 1, 1, 0, 0, 0, 0, some 60⟩,
        none, none⟩
      ⟨2024, 1, 1, 0, 0, 0, 0, none⟩ = Except.ok true ∧
    helpersIsExpired ⟨1, [], ⟨2020, 1, 1, 0, 0, 0, 0, none⟩,
        some ⟨2020, 1, 1, 0, 0, 0, 0, none⟩⟩
      ⟨2024, 1, 1, 0, 0, 0, 0, none⟩ = Except.ok true := by
  constructor
  · rw [expiry_comparison_amended.1 _ ⟨2024, 1, 1, 0, 0, 0, 0, none⟩
      ⟨2020, 1, 1, 0, 0, 0, 0, some 60⟩ rfl rfl]
    rfl
  · rw [expiry_comparison_amended.2 _ ⟨2024, 1, 1, 0, 0, 0, 0, none⟩
      ⟨2020, 1, 1, 0, 0, 0, 0, none⟩ rfl rfl rfl]
    rfl

/-- C9: the claim (and the spec, and the code's own error message
`title must be < 32`) requires titles of length 32 or more to be
rejected, but `validate_title` only rejects lengths strictly greater
than 32: a 32-character title is accepted, a 33-character one is
rejected. -/
theorem validate_title_boundary :
    validate_title (some (List.replicate 32 'a')) =
      Except.ok (some (List.replicate 32 'a')) ∧
    (List.replicate 32 'a').length = 32 ∧
    validate_title (some (List.replicate 33 'a')) =
      Except.error "title must be < 32".data ∧
    validate_title none = Except.ok none := by
  refine ⟨rfl, by simp, rfl, rfl⟩

/-- C6: Expired access.  For every stored paste whose metadata decodes
and whose `is_expired` check yields true, `try_get_paste` with
`auto_remove` fails with `PasteExpiredException` and the backing file is
absent afterwards; this holds whether or not the file vanished
concurrently before the `remove` call — the `FileNotFoundError` of that
race is swallowed, so the failure is always `expired`, never the race
error. -/
theorem expired_access (fs : Fs) (root_path : FsPath) (paste_id : List Char) (now : Datetime)
    (race : Bool) (paste_path : FsPath) (file : List Char) (m : PasteMeta)
    (hpath : create_paste_path root_path paste_id = Except.ok paste_path)
    (hfile : fsLookup fs paste_path = some file)
    (hmeta : read_paste_meta file = Except.ok m)
    (hexp : helpersIsExpired m now = Except.ok true) :
    (try_get_paste fs root_path paste_id true now race).1 = Except.error PasteErr.expired ∧
    fsLookup (try_get_paste fs root_path paste_id true now race).2 paste_path = none := by
  unfold try_get_paste
  rw [hpath]
  simp only []
  rw [hfile]
  simp only []
  rw [hmeta]
  simp only []
  rw [hexp]
  simp only [if_true]
  cases race with
  | true =>
    constructor
    · simp [os_remove, fsLookup_erase]
    · simp [os_remove, fsLookup_erase]
  | false =>
    constructor
    · simp [os_remove, hfile]
    · simp [os_remove, hfile, fsLookup_erase]

def expiredMeta : PasteMeta :=
  ⟨1, "abc".data, ⟨2020, 1, 1, 0, 0, 0, 0, none⟩, some ⟨2020, 1, 2, 0, 0, 0, 0, none⟩⟩

def expiredFile : List Char := write_paste expiredMeta []

def expiredFs : Fs := [([['a', 'b'], ['c']], expiredFile)]

theorem expired_access_witness :
    (try_get_paste expiredFs [] "abc".data true ⟨2024, 1, 1, 0, 0, 0, 0, none⟩ true).1 =
      Except.error PasteErr.expired ∧
    (try_get_paste expiredFs [] "abc".data true ⟨2024, 1, 1, 0, 0, 0, 0, none⟩ false).1 =
      Except.error PasteErr.expired ∧
    fsLookup (try_get_paste expiredFs [] "abc".data true
      ⟨2024, 1, 1, 0, 0, 0, 0, none⟩ false).2 [['a', 'b'], ['c']] = none := by
  have hmeta : read_paste_meta expiredFile = Except.ok expiredMeta := by
    unfold expiredFile write_paste read_paste_meta pyReadline
    rw [breakLine_no_newline (dumpsMeta expiredMeta) [] (newline_not_mem_dumpsMeta expiredMeta)]
    simp only []
    exact get_paste_meta_dumps expiredMeta (by decide) ['\n'] rfl
  refine ⟨?_, ?_, ?_⟩
  · exact (expired_access expiredFs [] "abc".data ⟨2024, 1, 1, 0, 0, 0, 0, none⟩ true
      [['a', 'b'], ['c']] expiredFile expiredMeta rfl rfl hmeta rfl).1
  · exact (expired_access expiredFs [] "abc".data ⟨2024, 1, 1, 0, 0, 0, 0, none⟩ false
      [['a', 'b'], ['c']] expiredFile expiredMeta rfl rfl hmeta rfl).1
  · exact (expired_access expiredFs [] "abc".data ⟨2024, 1, 1, 0, 0, 0, 0, none⟩ false
      [['a', 'b'], ['c']] expiredFile expiredMeta rfl rfl hmeta rfl).2

/-- C10: every identifier produced by `create_paste_id` is a URL-safe
token of fixed length — 40 characters for a long id (30 random bytes), 10
for a short one (7 random bytes) — so its length is always at least 3 and
`create_paste_path` never raises `PasteIdException` on a generated id. -/
theorem generated_id_safe (long : Bool) (entropy : List Nat)
    (hlen : (if long then 30 else 7) ≤ entropy.length)
    (hbytes : ∀ b ∈ entropy, b < 256) :
    (create_paste_id long entropy).length = (if long then 40 else 10) ∧
    3 ≤ (create_paste_id long entropy).length ∧
    (∀ c ∈ create_paste_id long entropy, c ∈ base64Alphabet) ∧
    ∀ root_path : FsPath, create_paste_path root_path (create_paste_id long entropy) =
      Except.ok (root_path ++ [(create_paste_id long entropy).take 2,
        (create_paste_id long entropy).drop 2]) := by
  have hlen1 : (create_paste_id long entropy).length = (if long then 40 else 10) := by
    cases long with
    | true =>
      simp only [if_true] at hlen ⊢
      simp only [create_paste_id, if_true, token_urlsafe, length_base64UrlNoPad,
        List.length_take]
      omega
    | false =>
      simp only [Bool.false_eq_true, if_false] at hlen ⊢
      simp only [create_paste_id, Bool.false_eq_true, if_false, token_urlsafe,
        length_base64UrlNoPad, List.length_take]
      omega
  have h3 : ¬(create_paste_id long entropy).length < 3 := by
    rw [hlen1]
    cases long <;> decide
  refine ⟨hlen1, by omega, ?_, ?_⟩
  · intro c hc
    cases long with
    | true =>
      simp only [create_paste_id, if_true, token_urlsafe] at hc
      exact base64UrlNoPad_mem _ (fun b hb => hbytes b (List.take_subset _ _ hb)) c hc
    | false =>
      simp only [create_paste_id, Bool.false_eq_true, if_false, token_urlsafe] at hc
      exact base64UrlNoPad_mem _ (fun b hb => hbytes b (List.take_subset _ _ hb)) c hc
  · intro root_path
    unfold create_paste_path
    rw [if_neg h3]

theorem generated_id_safe_witness :
    (if true then 30 else 7) ≤ (List.replicate 30 0).length ∧
    (∀ b ∈ List.replicate 30 (0 : Nat), b < 256) ∧
    (create_paste_id true (List.replicate 30 0)).length = 40 ∧
    (create_paste_id false (List.replicate 30 0)).length = 10 := by
  refine ⟨by decide, by decide, ?_, ?_⟩
  · have h := (generated_id_safe true (List.replicate 30 0) (by decide) (by decide)).1
    simpa using h
  · have h := (generated_id_safe false (List.replicate 30 0) (by decide) (by decide)).1
    simpa using h
